import Mathlib

/-!
Verification of the pmtiles-contour-server core pipeline (src/server.js).

The JavaScript source is shallowly embedded in Lean 4.  Number semantics:
the server computes with JS doubles; every constant appearing in the code
(256, 0.1, 0.01, 32768, 4096, ...) is modelled as the exact rational it
denotes, so arithmetic is carried out in ℚ.  Flat RGBA pixel arrays are
modelled as total pixel functions; fallible code (throw / try-catch) is
modelled with Except.  External libraries (d3-contour, vt-pbf) are not part
of the repository source; where a claim depends on them they are modelled
from the specification, as marked in the corresponding doc comments.
-/

/-- One RGBA pixel: (r, g, b, a) byte values. -/
abbrev Pixel : Type := ℕ × ℕ × ℕ × ℕ

/-- The neutral sentinel pixel used for missing tile data
(server.js lines 306-311 and 326-331). -/
def sentinelPixel : Pixel := (128, 128, 128, 255)

/-- Embedding of `decodeElevation(r, g, b, encoding)` (server.js lines 123-130).
Terrarium: `r * 256 + g + b / 256 - 32768`;
Mapbox: `-10000 + ((r * 256 * 256 + g * 256 + b) * 0.1)`;
any other tag throws `Unknown encoding: <tag>`, modelled as `Except.error`. -/
def decodeElevation (r g b : ℕ) (encoding : String) : Except String ℚ :=
  if encoding = "terrarium" then
    .ok ((r : ℚ) * 256 + g + (b : ℚ) / 256 - 32768)
  else if encoding = "mapbox" then
    .ok (-10000 + (((r : ℚ) * 256 * 256 + (g : ℚ) * 256 + b) * (1 / 10)))
  else
    .error ("Unknown encoding: " ++ encoding)

/-- JavaScript truncation toward zero, used by the `%` operator on numbers. -/
def jsTrunc (q : ℚ) : ℤ :=
  if 0 ≤ q then ⌊q⌋ else ⌈q⌉

/-- The JavaScript remainder operator `a % m` on numbers:
`a - trunc(a / m) * m` (result carries the sign of the dividend). -/
def jsMod (a m : ℚ) : ℚ :=
  a - (jsTrunc (a / m) : ℚ) * m

/-- Embedding of the major/minor classifier
`Math.abs(feature.value % majorInterval) < 0.01` (server.js line 174). -/
def isMajorLevel (v majorInterval : ℚ) : Bool :=
  decide (|jsMod v majorInterval| < 1 / 100)

/-- The running minimum/maximum fold of `generateContours`
(server.js lines 136-150): the source seeds with `±Infinity`; over ℚ this is
modelled with an `Option` accumulator, `none` standing for the untouched
seeds (empty input). -/
def minMax (l : List ℚ) : Option (ℚ × ℚ) :=
  l.foldl
    (fun acc v =>
      match acc with
      | none => some (v, v)
      | some (lo, hi) => some (min lo v, max hi v))
    none

/-- Embedding of the threshold generation loop (server.js lines 154-161):
`minorStart = Math.ceil(minEle / minInterval) * minInterval;`
`for (let ele = minorStart; ele <= maxEle; ele += minInterval) push(ele)`.
The loop is written in closed form: it pushes `minorStart + k * minInterval`
for `k = 0, 1, ...` while the value stays `≤ maxEle`, which for
`0 < minInterval` is exactly `k ≤ ⌊(maxEle - minorStart) / minInterval⌋`.
For `minInterval ≤ 0` the source loop would not terminate; the model
returns `[]` there (no claim concerns that regime). -/
def generateThresholds (minEle maxEle minInterval : ℚ) : List ℚ :=
  if 0 < minInterval ∧
      (⌈minEle / minInterval⌉ : ℚ) * minInterval ≤ maxEle then
    (List.range
        (⌊(maxEle - (⌈minEle / minInterval⌉ : ℚ) * minInterval) /
            minInterval⌋.toNat + 1)).map
      (fun k : ℕ =>
        (⌈minEle / minInterval⌉ : ℚ) * minInterval + (k : ℚ) * minInterval)
  else []

/-- The per-request contour-level pipeline of `generateContours`
(server.js lines 133-176) restricted to level values and flags: min/max fold,
threshold generation, isoline extraction, classification.

Modelled from the spec: the isoline extraction step is delegated to the
external d3-contour library (not part of src/); following spec §4.4, a
threshold at which the elevation field has a crossing (some value strictly
below it and some value at or above it) yields a contour level, and "a
threshold with no crossings yields an empty ring set and may be omitted from
the output".  Classification is `isMajorLevel` from the source (line 174). -/
def contourLevels (elevations : List ℚ) (minInterval majorInterval : ℚ) :
    List (ℚ × Bool) :=
  match minMax elevations with
  | none => []
  | some (lo, hi) =>
    (generateThresholds lo hi minInterval).filterMap
      (fun t =>
        if (elevations.any fun v => decide (v < t)) &&
            (elevations.any fun v => decide (t ≤ v)) then
          some (t, isMajorLevel t majorInterval)
        else none)

/-- C1: the elevation decoder computes exactly the Terrarium formula
`r*256 + g + b/256 - 32768` and the Mapbox formula
`-10000 + (r*65536 + g*256 + b) * 0.1` (exact rational arithmetic standing
for the exact float64 results of the source's expressions); in particular
Terrarium (128,0,0) decodes to 0 and Mapbox (0,0,0) decodes to -10000. -/
theorem decodeElevation_formulas :
    (∀ r g b : ℕ,
      decodeElevation r g b "terrarium" =
        .ok ((r : ℚ) * 256 + g + (b : ℚ) / 256 - 32768)) ∧
    (∀ r g b : ℕ,
      decodeElevation r g b "mapbox" =
        .ok (-10000 + ((r : ℚ) * 65536 + (g : ℚ) * 256 + b) * (1 / 10))) ∧
    decodeElevation 128 0 0 "terrarium" = .ok 0 ∧
    decodeElevation 0 0 0 "mapbox" = .ok (-10000) := by
  have hm : ∀ r g b : ℕ,
      decodeElevation r g b "mapbox" =
        .ok (-10000 + ((r : ℚ) * 65536 + (g : ℚ) * 256 + b) * (1 / 10)) := by
    intro r g b
    unfold decodeElevation
    rw [if_neg (by decide), if_pos rfl]
    exact congrArg Except.ok (by ring)
  refine ⟨fun r g b => rfl, hm, ?_, ?_⟩
  · unfold decodeElevation
    rw [if_pos rfl]
    exact congrArg Except.ok (by norm_num)
  · rw [hm 0 0 0]
    exact congrArg Except.ok (by norm_num)

/-- Concrete floor evaluation helper. -/
theorem floorEval (a : ℚ) (z : ℤ) (h1 : (z : ℚ) ≤ a) (h2 : a < z + 1) :
    ⌊a⌋ = z :=
  Int.floor_eq_iff.mpr ⟨h1, h2⟩

/-- Concrete ceiling evaluation helper. -/
theorem ceilEval (a : ℚ) (z : ℤ) (h1 : (z : ℚ) - 1 < a) (h2 : a ≤ z) :
    ⌈a⌉ = z :=
  Int.ceil_eq_iff.mpr ⟨h1, h2⟩

theorem jsTrunc_intCast (k : ℤ) : jsTrunc (k : ℚ) = k := by
  unfold jsTrunc
  split <;> simp


/-- C2 (amended): for every `min`, `max` and positive `minorInterval i`, the
threshold list is strictly increasing, consists of integer multiples of `i`,
its first element lies in `[min, min + i]`, every element is `≤ max`, and it
is empty whenever `min > max`; it is empty exactly when
`⌈min / i⌉ * i > max`, which can also happen with `min ≤ max` (so "empty iff
min > max" is amended to this condition). -/
theorem generateThresholds_spec (mn mx i : ℚ) (hi : 0 < i) :
    List.Chain' (· < ·) (generateThresholds mn mx i) ∧
    (∀ v ∈ generateThresholds mn mx i, ∃ k : ℤ, v = (k : ℚ) * i) ∧
    (∀ s, (generateThresholds mn mx i).head? = some s → mn ≤ s ∧ s ≤ mn + i) ∧
    (∀ v ∈ generateThresholds mn mx i, v ≤ mx) ∧
    (mx < mn → generateThresholds mn mx i = []) ∧
    (generateThresholds mn mx i = [] ↔ mx < (⌈mn / i⌉ : ℚ) * i) := by
  have hmn : mn ≤ (⌈mn / i⌉ : ℚ) * i := by
    have h := Int.le_ceil (mn / i)
    calc mn = mn / i * i := by field_simp
    _ ≤ (⌈mn / i⌉ : ℚ) * i := mul_le_mul_of_nonneg_right h hi.le
  have hcap : (⌈mn / i⌉ : ℚ) * i < mn + i := by
    have h := Int.ceil_lt_add_one (mn / i)
    calc (⌈mn / i⌉ : ℚ) * i < (mn / i + 1) * i :=
          mul_lt_mul_of_pos_right h hi
    _ = mn + i := by field_simp
  by_cases hle : (⌈mn / i⌉ : ℚ) * i ≤ mx
  · have hT : generateThresholds mn mx i =
        (List.range (⌊(mx - (⌈mn / i⌉ : ℚ) * i) / i⌋.toNat + 1)).map
          (fun k : ℕ =>
            (⌈mn / i⌉ : ℚ) * i + (k : ℚ) * i) := by
      unfold generateThresholds
      rw [if_pos ⟨hi, hle⟩]
    have hfl0 : (0 : ℤ) ≤ ⌊(mx - (⌈mn / i⌉ : ℚ) * i) / i⌋ :=
      Int.floor_nonneg.mpr (div_nonneg (by linarith) hi.le)
    have hbound : ∀ k : ℕ,
        k < ⌊(mx - (⌈mn / i⌉ : ℚ) * i) / i⌋.toNat + 1 →
        (⌈mn / i⌉ : ℚ) * i + (k : ℚ) * i ≤ mx := by
      intro k hk
      have hk' : (k : ℤ) ≤ ⌊(mx - (⌈mn / i⌉ : ℚ) * i) / i⌋ := by omega
      have hk'' : (k : ℚ) ≤ (mx - (⌈mn / i⌉ : ℚ) * i) / i :=
        le_trans (by exact_mod_cast hk') (Int.floor_le _)
      have := (le_div_iff₀ hi).mp hk''
      linarith
    refine ⟨?_, ?_, ?_, ?_, ?_, ?_⟩
    · rw [hT, List.chain'_map, List.chain'_range_succ]
      intro m _
      have hm : (m : ℚ) < (Nat.succ m : ℕ) := by exact_mod_cast Nat.lt_succ_self m
      have := mul_lt_mul_of_pos_right hm hi
      linarith
    · rw [hT]
      intro v hv
      obtain ⟨k, _, rfl⟩ := List.mem_map.mp hv
      exact ⟨⌈mn / i⌉ + k, by push_cast; ring⟩
    · rw [hT]
      intro s hs
      rw [List.head?_map, List.range_succ_eq_map] at hs
      simp only [List.head?_cons, Option.map_some', Option.some.injEq] at hs
      rw [← hs]
      norm_num
      exact ⟨hmn, hcap.le⟩
    · rw [hT]
      intro v hv
      obtain ⟨k, hk, rfl⟩ := List.mem_map.mp hv
      exact hbound k (List.mem_range.mp hk)
    · intro h
      linarith
    · rw [hT]
      constructor
      · intro h
        exact absurd h (by simp)
      · intro h
        linarith
  · have hT : generateThresholds mn mx i = [] := by
      unfold generateThresholds
      rw [if_neg]
      intro h
      exact hle h.2
    refine ⟨?_, ?_, ?_, ?_, ?_, ?_⟩
    · rw [hT]
      exact List.chain'_nil
    · rw [hT]
      intro v hv
      cases hv
    · rw [hT]
      intro s hs
      cases hs
    · rw [hT]
      intro v hv
      cases hv
    · intro _
      exact hT
    · rw [hT]
      simpa using lt_of_not_ge hle

/-- C2 witness: the amended threshold theorem applied at min 0, max 100,
interval 10, hypothesis `0 < 10` discharged. -/
theorem generateThresholds_spec_witness :
    List.Chain' (· < ·) (generateThresholds 0 100 10) ∧
    (∀ v ∈ generateThresholds 0 100 10, ∃ k : ℤ, v = (k : ℚ) * 10) ∧
    (∀ s, (generateThresholds 0 100 10).head? = some s →
      (0 : ℚ) ≤ s ∧ s ≤ 0 + 10) ∧
    (∀ v ∈ generateThresholds 0 100 10, v ≤ 100) ∧
    ((100 : ℚ) < 0 → generateThresholds 0 100 10 = []) ∧
    (generateThresholds 0 100 10 = [] ↔
      (100 : ℚ) < (⌈(0 : ℚ) / 10⌉ : ℚ) * 10) :=
  generateThresholds_spec 0 100 10 (by norm_num)

/-- C2 counterexample: with min 1, max 2, minorInterval 10 the threshold
list is empty although min ≤ max, refuting "the sequence is empty if and
only if min > max". -/
theorem generateThresholds_empty_below_start :
    generateThresholds 1 2 10 = [] ∧ (1 : ℚ) ≤ 2 := by
  have hc : ⌈(1 : ℚ) / 10⌉ = 1 := ceilEval _ 1 (by norm_num) (by norm_num)
  refine ⟨?_, by norm_num⟩
  unfold generateThresholds
  rw [if_neg]
  rw [hc]
  push_neg
  intro _
  norm_num

/-- The JS remainder of a value exactly `M/2` past an integer multiple of
`M` has absolute value `M/2`. -/
theorem jsMod_half_abs (M : ℚ) (hM : 0 < M) (k : ℤ) :
    |jsMod ((k : ℚ) * M + M / 2) M| = M / 2 := by
  have hMne : M ≠ 0 := ne_of_gt hM
  have hdiv : ((k : ℚ) * M + M / 2) / M = (k : ℚ) + 1 / 2 := by
    field_simp
    ring
  unfold jsMod jsTrunc
  rw [hdiv]
  by_cases h0 : (0 : ℚ) ≤ (k : ℚ) + 1 / 2
  · rw [if_pos h0]
    have hfl : ⌊(k : ℚ) + 1 / 2⌋ = k := by
      rw [Int.floor_int_add, floorEval (1 / 2 : ℚ) 0 (by norm_num) (by norm_num)]
      omega
    rw [hfl]
    have he : (k : ℚ) * M + M / 2 - (k : ℚ) * M = M / 2 := by ring
    rw [he, abs_of_pos (by positivity)]
  · rw [if_neg h0]
    have hcl : ⌈(k : ℚ) + 1 / 2⌉ = k + 1 := by
      rw [add_comm, Int.ceil_add_int, ceilEval (1 / 2 : ℚ) 1 (by norm_num) (by norm_num)]
      omega
    rw [hcl]
    have he : (k : ℚ) * M + M / 2 - ((k + 1 : ℤ) : ℚ) * M = -(M / 2) := by
      push_cast
      ring
    rw [he, abs_neg, abs_of_pos (by positivity)]

/-- C3 (amended): a level is classified major exactly when
`|value mod M| < 0.01`; every exact integer multiple of `M` is classified
major; and provided `M ≥ 0.02` (so that `M/2` is not itself inside the 0.01
tolerance — for positive `M < 0.02` the claim fails, see the
counterexample), every value exactly `M/2` away from the nearest multiple of
`M` is classified minor. -/
theorem isMajorLevel_spec (v M : ℚ) (hM : 0 < M) :
    (isMajorLevel v M = true ↔ |jsMod v M| < 1 / 100) ∧
    (∀ k : ℤ, v = (k : ℚ) * M → isMajorLevel v M = true) ∧
    (1 / 50 ≤ M → ∀ k : ℤ, v = (k : ℚ) * M + M / 2 →
      isMajorLevel v M = false) := by
  refine ⟨by simp [isMajorLevel], ?_, ?_⟩
  · rintro k rfl
    have hdiv : (k : ℚ) * M / M = (k : ℚ) :=
      mul_div_cancel_right₀ _ (ne_of_gt hM)
    simp only [isMajorLevel, jsMod, hdiv, jsTrunc_intCast]
    norm_num
  · rintro hM2 k rfl
    simp only [isMajorLevel, decide_eq_false_iff_not, not_lt]
    rw [jsMod_half_abs M hM k]
    linarith

/-- C3 witness: the amended classifier theorem applied at value 50,
majorInterval 50 (an exact multiple: classified major) with the tolerance
hypotheses discharged; instantiating the halfway part at 75 = 1*50 + 25
yields minor. -/
theorem isMajorLevel_spec_witness :
    ((isMajorLevel 50 50 = true ↔ |jsMod 50 50| < 1 / 100) ∧
      (∀ k : ℤ, (50 : ℚ) = (k : ℚ) * 50 → isMajorLevel 50 50 = true) ∧
      ((1 : ℚ) / 50 ≤ 50 → ∀ k : ℤ, (50 : ℚ) = (k : ℚ) * 50 + 50 / 2 →
        isMajorLevel 50 50 = false)) ∧
    isMajorLevel 50 50 = true ∧
    isMajorLevel 75 50 = false := by
  have h := isMajorLevel_spec 50 50 (by norm_num)
  have h75 := isMajorLevel_spec 75 50 (by norm_num)
  refine ⟨h, h.2.1 1 (by norm_num), h75.2.2 (by norm_num) 1 (by norm_num)⟩

/-- C3 counterexample: for majorInterval `M = 0.01`, the value `0.005` is
exactly `M/2` away from the nearest multiple of `M` (namely 0), yet the
classifier marks it major, refuting the claim for arbitrary positive `M`. -/
theorem isMajorLevel_halfway_counterexample :
    isMajorLevel (1 / 200) (1 / 100) = true ∧
    (0 : ℚ) < 1 / 100 ∧
    (1 / 200 : ℚ) = ((0 : ℤ) : ℚ) * (1 / 100) + (1 / 100) / 2 := by
  refine ⟨?_, by norm_num, by norm_num⟩
  have h1 : ((1 : ℚ) / 200) / (1 / 100) = 1 / 2 := by norm_num
  have h2 : jsTrunc (1 / 2) = 0 := by
    unfold jsTrunc
    rw [if_pos (by norm_num), floorEval (1 / 2 : ℚ) 0 (by norm_num) (by norm_num)]
  simp only [isMajorLevel, jsMod, h1, h2]
  rw [show ((1 : ℚ) / 200 - ((0 : ℤ) : ℚ) * (1 / 100)) = 1 / 200 by norm_num,
    abs_of_pos (by norm_num : (0 : ℚ) < 1 / 200)]
  norm_num

/-- A contour feature as produced by the contour generator: a value, the
major flag, and MultiPolygon coordinates (polygons of rings of points). -/
structure ContourFeature where
  value : ℚ
  isMajor : Bool
  coordinates : List (List (List (ℚ × ℚ)))

/-- The inner ring translation of `clipContoursToTile` (server.js lines
400-408): subtract `buffer` from every x and y coordinate, no clamping. -/
def translateRing (buffer : ℚ) (ring : List (ℚ × ℚ)) : List (ℚ × ℚ) :=
  ring.map fun p => (p.1 - buffer, p.2 - buffer)

/-- The per-polygon loop of `clipContoursToTile` (server.js lines 397-414):
translate each ring, keep rings with more than one point. -/
def clipPolygon (buffer : ℚ) (polygon : List (List (ℚ × ℚ))) :
    List (List (ℚ × ℚ)) :=
  polygon.filterMap fun ring =>
    if 1 < (translateRing buffer ring).length then
      some (translateRing buffer ring)
    else none

/-- Embedding of `clipContoursToTile(contourFeatures, tileWidth, tileHeight,
buffer)` (server.js lines 382-430): features with no coordinates are
skipped, each polygon keeps its translated rings of more than one point,
empty polygons are dropped, and a feature survives only if some polygon
survives.  `tileWidth`/`tileHeight` are accepted and unused, as in the
source. -/
def clipContoursToTile (contourFeatures : List ContourFeature)
    (tileWidth tileHeight buffer : ℚ) : List ContourFeature :=
  contourFeatures.filterMap fun f =>
    if f.coordinates.length = 0 then none
    else if 0 < ((f.coordinates.map (clipPolygon buffer)).filter
        fun poly => decide (0 < poly.length)).length then
      some { f with coordinates :=
        ((f.coordinates.map (clipPolygon buffer)).filter
          (fun poly => decide (0 < poly.length))) }
    else none

/-- Adds `buffer` back to every coordinate of every ring (the inverse
translation used to state the C5 round-trip). -/
def addBufferBack (buffer : ℚ) (fs : List ContourFeature) :
    List ContourFeature :=
  fs.map fun f =>
    { f with coordinates := f.coordinates.map fun poly =>
        poly.map fun ring => ring.map fun p => (p.1 + buffer, p.2 + buffer) }

/-- Written from the spec's words for the C5 round-trip statement: drop
exactly the rings with fewer than 2 points (and the polygons and features
thereby emptied), leaving all surviving rings untouched. -/
def specDropShortRings (fs : List ContourFeature) : List ContourFeature :=
  fs.filterMap fun f =>
    if 0 < ((f.coordinates.map fun poly =>
        poly.filter fun ring => decide (1 < ring.length)).filter
          fun poly => decide (0 < poly.length)).length then
      some { f with coordinates :=
        ((f.coordinates.map fun poly =>
          poly.filter fun ring => decide (1 < ring.length)).filter
            (fun poly => decide (0 < poly.length))) }
    else none

theorem translateRing_roundtrip (b : ℚ) (ring : List (ℚ × ℚ)) :
    (translateRing b ring).map (fun p => (p.1 + b, p.2 + b)) = ring := by
  unfold translateRing
  rw [List.map_map]
  have h : ((fun p : ℚ × ℚ => (p.1 + b, p.2 + b)) ∘
      (fun p : ℚ × ℚ => (p.1 - b, p.2 - b))) = id := by
    funext p
    simp [Function.comp, sub_add_cancel]
  rw [h, List.map_id]

theorem clipPolygon_roundtrip (b : ℚ) (polygon : List (List (ℚ × ℚ))) :
    (clipPolygon b polygon).map
        (fun ring => ring.map fun p => (p.1 + b, p.2 + b)) =
      polygon.filter fun ring => decide (1 < ring.length) := by
  induction polygon with
  | nil => rfl
  | cons r rest ih =>
    simp only [clipPolygon, List.filterMap_cons, List.filter_cons] at *
    by_cases h : 1 < r.length
    · rw [if_pos (by simpa [translateRing] using h)]
      simp [List.map_cons, translateRing_roundtrip, ih, h]
    · rw [if_neg (by simpa [translateRing] using h)]
      simpa [h] using ih

theorem clipCoordinates_roundtrip (b : ℚ)
    (coords : List (List (List (ℚ × ℚ)))) :
    (((coords.map (clipPolygon b)).filter
        (fun poly => decide (0 < poly.length))).map
      (fun poly => poly.map fun ring => ring.map fun p =>
        (p.1 + b, p.2 + b))) =
      ((coords.map fun poly =>
        poly.filter fun ring => decide (1 < ring.length)).filter
          (fun poly => decide (0 < poly.length))) := by
  induction coords with
  | nil => rfl
  | cons poly rest ih =>
    simp only [List.map_cons, List.filter_cons]
    have hlen : (poly.filter fun ring => decide (1 < ring.length)).length =
        (clipPolygon b poly).length := by
      rw [← clipPolygon_roundtrip b poly, List.length_map]
    by_cases h : 0 < (clipPolygon b poly).length
    · rw [if_pos (by simpa using h),
        if_pos (by simp only [decide_eq_true_eq]; omega)]
      simp only [List.map_cons, clipPolygon_roundtrip, ih]
    · rw [if_neg (by simpa using h),
        if_neg (by simp only [decide_eq_true_eq]; omega)]
      exact ih

/-- C5: translating the contour rings by `-buffer` and then adding `buffer`
back to every coordinate of every surviving ring reproduces exactly the
original rings with at least 2 points (no clamping, nothing else dropped):
`addBufferBack buffer ∘ clipContoursToTile · buffer` equals dropping the
short rings. -/
theorem clipContoursToTile_roundtrip (fs : List ContourFeature)
    (tw th b : ℚ) :
    addBufferBack b (clipContoursToTile fs tw th b) =
      specDropShortRings fs := by
  unfold addBufferBack clipContoursToTile specDropShortRings
  rw [List.map_filterMap]
  apply List.filterMap_congr
  intro f _
  have hlen : (((f.coordinates.map (clipPolygon b)).filter
      (fun poly => decide (0 < poly.length))).length) =
      (((f.coordinates.map fun poly =>
        poly.filter fun ring => decide (1 < ring.length)).filter
          (fun poly => decide (0 < poly.length))).length) := by
    rw [← clipCoordinates_roundtrip b f.coordinates, List.length_map]
  by_cases h0 : f.coordinates.length = 0
  · have hnil : f.coordinates = [] := List.length_eq_zero.mp h0
    rw [if_pos h0]
    rw [hnil]
    simp
  · rw [if_neg h0]
    by_cases h1 : 0 < ((f.coordinates.map (clipPolygon b)).filter
        (fun poly => decide (0 < poly.length))).length
    · rw [if_pos h1, if_pos (by omega)]
      simp only [Option.map_some']
      congr 1
      have := clipCoordinates_roundtrip b f.coordinates
      exact congrArg (fun c => { f with coordinates := c }) this
    · rw [if_neg h1, if_neg (by omega)]
      rfl

/-- A vector-tile feature in the intermediate geojson-vt format built by
`encodeMVT` (server.js lines 210-216): wrapped geometry, geometry type 2
(LineString), and the two integer tags `ele` and `level`. -/
structure MVTFeature where
  geometry : List (List (ℤ × ℤ))
  geomType : ℕ
  ele : ℤ
  level : ℕ
deriving DecidableEq

/-- The layer structure handed to the wire encoder: `encodeMVT` passes
`{ contours: tile }` to vt-pbf (server.js line 241), i.e. a single layer
named `contours` holding the feature list. -/
structure EncodedTile where
  layerName : String
  features : List MVTFeature

/-- The point rescaling of `encodeMVT` (server.js lines 205-206):
`Math.round((px / width) * extent)`, `Math.round((py / height) * extent)`.
JS `Math.round` is `⌊x + 1/2⌋`, which is Mathlib's `round` on ℚ. -/
def rescalePoint (width height extent : ℚ) (p : ℚ × ℚ) : ℤ × ℤ :=
  (round (p.1 / width * extent), round (p.2 / height * extent))

/-- Embedding of `encodeMVT(contourFeatures, width, height, ...)`
(server.js lines 189-250) up to the feature list handed to the external
vt-pbf wire encoder: extent 4096, per-feature skip of empty coordinates,
per-ring rescaling, rings of more than one point pushed as LineString
features tagged `ele = Math.round(value)` and `level = isMajor ? 1 : 0`,
all collected under the single layer name `contours`. -/
def encodeMVT (contourFeatures : List ContourFeature)
    (width height : ℚ) : EncodedTile :=
  { layerName := "contours"
    features :=
      contourFeatures.foldl
        (fun acc c =>
          if c.coordinates.isEmpty then acc
          else
            c.coordinates.foldl
              (fun acc₂ polygon =>
                polygon.foldl
                  (fun acc₃ ring =>
                    if 1 < (ring.map (rescalePoint width height 4096)).length
                    then
                      acc₃ ++ [{ geometry :=
                                   [ring.map (rescalePoint width height 4096)],
                                 geomType := 2,
                                 ele := round c.value,
                                 level := if c.isMajor then 1 else 0 }]
                    else acc₃)
                  acc₂)
              acc)
        [] }

/-- Written from the spec's words for the C6 statement: one line-string
feature per ring of at least 2 points, rescaled by
`round(x / tileWidth * extent)` with extent 4096, tags
`ele = round(value)` and `level = isMajor ? 1 : 0`. -/
def specEncodeFeatures (contourFeatures : List ContourFeature)
    (width height : ℚ) : List MVTFeature :=
  contourFeatures.flatMap fun c =>
    c.coordinates.flatMap fun polygon =>
      polygon.filterMap fun ring =>
        if 1 < ring.length then
          some { geometry := [ring.map (rescalePoint width height 4096)],
                 geomType := 2,
                 ele := round c.value,
                 level := if c.isMajor then 1 else 0 }
        else none

theorem foldl_append_of_step {α γ : Type _} (step : List γ → α → List γ)
    (k : α → List γ) (hstep : ∀ acc x, step acc x = acc ++ k x) :
    ∀ (l : List α) (acc : List γ), l.foldl step acc = acc ++ l.flatMap k := by
  intro l
  induction l with
  | nil => intro acc; simp
  | cons x xs ih =>
    intro acc
    rw [List.foldl_cons, hstep, ih, List.flatMap_cons, List.append_assoc]

theorem flatMap_if_singleton {α β : Type _} (p : α → Prop) [DecidablePred p]
    (g : α → β) (l : List α) :
    (l.flatMap fun x => if p x then [g x] else []) =
      l.filterMap fun x => if p x then some (g x) else none := by
  induction l with
  | nil => rfl
  | cons x xs ih =>
    rw [List.flatMap_cons, List.filterMap_cons]
    by_cases h : p x
    · rw [if_pos h, if_pos h, ih]
      rfl
    · rw [if_neg h, if_neg h, ih]
      rfl

theorem encodeMVT_eq (contourFeatures : List ContourFeature)
    (width height : ℚ) :
    encodeMVT contourFeatures width height =
      { layerName := "contours",
        features := specEncodeFeatures contourFeatures width height } := by
  unfold encodeMVT specEncodeFeatures
  congr 1
  rw [foldl_append_of_step _
    (fun c => c.coordinates.flatMap fun polygon =>
      polygon.filterMap fun ring =>
        if 1 < ring.length then
          some { geometry := [ring.map (rescalePoint width height 4096)],
                 geomType := 2,
                 ele := round c.value,
                 level := if c.isMajor then 1 else 0 }
        else none) ?_ contourFeatures []]
  · rw [List.nil_append]
  · intro acc c
    beta_reduce
    by_cases hc : c.coordinates.isEmpty
    · rw [if_pos hc, List.isEmpty_iff.mp hc]
      simp
    · rw [if_neg hc]
      rw [foldl_append_of_step _
        (fun polygon => polygon.filterMap fun ring =>
          if 1 < ring.length then
            some { geometry := [ring.map (rescalePoint width height 4096)],
                   geomType := 2,
                   ele := round c.value,
                   level := if c.isMajor then 1 else 0 }
          else none) ?_ c.coordinates acc]
      intro acc₂ polygon
      beta_reduce
      rw [← flatMap_if_singleton (fun ring : List (ℚ × ℚ) => 1 < ring.length)]
      rw [foldl_append_of_step _
        (fun ring => if 1 < ring.length then
            [{ geometry := [ring.map (rescalePoint width height 4096)],
               geomType := 2,
               ele := round c.value,
               level := if c.isMajor then 1 else 0 }]
          else []) ?_ polygon acc₂]
      intro acc₃ ring
      beta_reduce
      rw [List.length_map]
      by_cases hr : 1 < ring.length
      · rw [if_pos hr, if_pos hr]
      · rw [if_neg hr, if_neg hr, List.append_nil]

/-- C6: the vector tile encoder rescales every ring point by
`round(x / tileWidth * 4096)`, `round(y / tileHeight * 4096)`, emits each
ring of at least 2 points as one LineString feature with integer tags
`ele = round(value)` and `level = 1` iff the level is major, and puts all
features into the single layer named `contours`. -/
theorem encodeMVT_spec (contourFeatures : List ContourFeature)
    (width height : ℚ) :
    encodeMVT contourFeatures width height =
      { layerName := "contours",
        features := specEncodeFeatures contourFeatures width height } :=
  encodeMVT_eq contourFeatures width height

/-- Modelled from the spec: the byte serialization performed by the external
vt-pbf library (server.js line 241) is not part of src/; spec §4.7 fixes
that the encoder "returns a zero-length result when there are no features".
The byte content for a non-empty feature list is not specified and is
abstracted here as one opaque placeholder byte per feature. -/
def serializeMVT (tile : EncodedTile) : List ℕ :=
  if tile.features.isEmpty then [] else tile.features.map (fun _ => 0)

/-- Outcome of one tile request in the route handler
(server.js lines 481-545). -/
inductive TileResponse where
  | notFound : TileResponse
  | noContent : TileResponse
  | ok : List ℕ → TileResponse
  | internalError : String → TileResponse
deriving DecidableEq

/-- The final response mapping of the tile route (server.js lines 532-539):
a zero-length MVT buffer yields 204 No Content (`noContent`), otherwise the
buffer is sent (`ok`). -/
def respondWithMVT (mvtBuffer : List ℕ) : TileResponse :=
  if mvtBuffer.length = 0 then .noContent else .ok mvtBuffer

/-- C7: when encoding is reached with zero features — no contour level
contributed any ring of 2 or more points — the encoder's feature list is
empty, the (spec-modelled) wire serialization is zero-length, and the tile
route maps it to the no-content response, not an error and not not-found. -/
theorem encodeMVT_empty_response (contourFeatures : List ContourFeature)
    (width height : ℚ)
    (hshort : ∀ c ∈ contourFeatures, ∀ polygon ∈ c.coordinates,
      ∀ ring ∈ polygon, ring.length < 2) :
    (encodeMVT contourFeatures width height).features = [] ∧
    serializeMVT (encodeMVT contourFeatures width height) = [] ∧
    respondWithMVT (serializeMVT (encodeMVT contourFeatures width height)) =
      TileResponse.noContent := by
  have hfeat : (encodeMVT contourFeatures width height).features = [] := by
    rw [encodeMVT_eq]
    unfold specEncodeFeatures
    simp only [List.flatMap_eq_nil_iff, List.filterMap_eq_nil_iff]
    intro c hc polygon hp ring hr
    rw [if_neg]
    have := hshort c hc polygon hp ring hr
    omega
  refine ⟨hfeat, ?_, ?_⟩
  · unfold serializeMVT
    rw [hfeat]
    rfl
  · unfold serializeMVT
    rw [hfeat]
    rfl

/-- C7 witness: a single contour level whose only ring has one point yields
the empty feature list, zero-length bytes and the no-content response. -/
theorem encodeMVT_empty_response_witness :
    (encodeMVT [⟨100, false, [[[(1, 1)]]]⟩] 256 256).features = [] ∧
    serializeMVT (encodeMVT [⟨100, false, [[[(1, 1)]]]⟩] 256 256) = [] ∧
    respondWithMVT
      (serializeMVT (encodeMVT [⟨100, false, [[[(1, 1)]]]⟩] 256 256)) =
      TileResponse.noContent :=
  encodeMVT_empty_response [⟨100, false, [[[(1, 1)]]]⟩] 256 256 (by
    intro c hc polygon hp ring hr
    simp only [List.mem_singleton] at hc
    subst hc
    simp only [List.mem_singleton] at hp
    subst hp
    simp only [List.mem_singleton] at hr
    subst hr
    norm_num)

/-- A decoded raster tile (`decodeImage` result, server.js lines 109-120):
dimensions and an RGBA pixel grid.  The tile's own flat data array is
modelled as a pixel function over 2D coordinates; every source read of it
(`tile.data[(py*tile.width+px)*4+k]` with `px < tile.width`,
`py < tile.height`) is in bounds, so this is exact. -/
structure RasterTile where
  width : ℕ
  height : ℕ
  pix : ℤ → ℤ → Pixel

/-- The result of `stitchTiles` (server.js lines 371-378): the extracted
center-plus-buffer window together with the source tile dimensions. -/
structure StitchedCanvas where
  pix : ℤ → ℤ → Pixel
  width : ℕ
  height : ℕ
  tileWidth : ℕ
  tileHeight : ℕ
  buffer : ℕ

/-- The value obtained by reading a JS `Uint8ClampedArray` out of bounds:
each byte reads as `undefined`, and assigning `undefined` into a clamped
array stores 0, so an out-of-bounds pixel read materializes as
(0, 0, 0, 0). -/
def undefinedPixel : Pixel := (0, 0, 0, 0)

/-- Read of pixel slot `idx` (byte offset `idx * 4`) from a flat RGBA
array of `len` pixel slots: out-of-bounds reads yield `undefinedPixel`,
following JS typed-array semantics. -/
def readFlat (len : ℕ) (arr : ℤ → Pixel) (idx : ℤ) : Pixel :=
  if 0 ≤ idx ∧ idx < (len : ℤ) then arr idx else undefinedPixel

/-- Write of pixel slot `idx` into a flat RGBA array of `len` pixel slots:
out-of-bounds writes to a JS typed array are silently dropped. -/
def writeFlat (len : ℕ) (arr : ℤ → Pixel) (idx : ℤ) (p : Pixel) :
    ℤ → Pixel :=
  fun j => if 0 ≤ idx ∧ idx < (len : ℤ) ∧ j = idx then p else arr j

/-- The per-tile copy loop of `stitchTiles` (server.js lines 341-353):
`stitchedData[((offsetY+py)*stitchedWidth + offsetX+px)*4 + k] =
tile.data[(py*tile.width+px)*4 + k]` for k = 0..3, `py` outer and `px`
inner, as sequential flat writes at pixel granularity (every byte access
in the source is a 4-aligned group of 4, so pixel slots are exact). -/
def writeTileFlat (len : ℕ) (sw : ℤ) (arr : ℤ → Pixel) (t : RasterTile)
    (offX offY : ℤ) : ℤ → Pixel :=
  (List.range t.height).foldl
    (fun a (py : ℕ) =>
      (List.range t.width).foldl
        (fun a2 (px : ℕ) =>
          writeFlat len a2 ((offY + (py : ℤ)) * sw + (offX + (px : ℤ)))
            (t.pix (px : ℤ) (py : ℤ)))
        a)
    arr

/-- The 3x3 neighborhood offsets produced by `fetchTileWithBuffer`
(server.js lines 263-285): dy outer loop, dx inner loop. -/
def bufferPositions : List (ℤ × ℤ) :=
  [(-1, -1), (0, -1), (1, -1), (-1, 0), (0, 0), (1, 0), (-1, 1), (0, 1),
   (1, 1)]

/-- The stitched buffer of `stitchTiles` (server.js lines 314-354): a flat
array of `stitchedWidth * stitchedWidth` pixel slots with
`stitchedWidth = tileWidth * 3` — square in `tileWidth` even though the
logical canvas is 3 tiles tall (the allocation at line 325) — filled with
the sentinel (lines 326-331), then overwritten by each present tile at
offset `((pos.x + 1) * tileWidth, (pos.y + 1) * tileHeight)`.  Writes that
fall outside the allocation (possible when tileHeight > tileWidth) are
dropped, as in the source. -/
def stitchedFlat (tiles : List (Option RasterTile))
    (positions : List (ℤ × ℤ)) (tw th : ℕ) : ℤ → Pixel :=
  (tiles.zip positions).foldl
    (fun arr e =>
      match e.1 with
      | none => arr
      | some t =>
        writeTileFlat ((tw * 3) * (tw * 3)) ((tw * 3 : ℕ) : ℤ) arr t
          ((e.2.1 + 1) * tw) ((e.2.2 + 1) * th))
    (fun _ => sentinelPixel)

/-- Embedding of `stitchTiles(tiles, positions, bufferPixels)` (server.js
lines 291-379): the first present tile fixes `tileWidth`/`tileHeight`;
the flat stitched buffer is composited as in `stitchedFlat`; the extract
loop reads `stitchedData[((srcMinY+y)*stitchedWidth + srcMinX+x)*4]` with
`srcMinX = tileWidth - buffer` and `srcMinY = tileHeight - buffer`, so
the extracted pixel at `(x, y)` is the flat read at slot
`(tileHeight - buffer + y) * stitchedWidth + (tileWidth - buffer + x)`;
out-of-bounds reads return (0,0,0,0) exactly as the source's typed arrays
behave. -/
def stitchTiles (tiles : List (Option RasterTile))
    (positions : List (ℤ × ℤ)) (bufferPixels : ℕ) : Option StitchedCanvas :=
  match tiles.findSome? id with
  | none => none
  | some validTile =>
    some
      { pix := fun x y =>
          readFlat ((validTile.width * 3) * (validTile.width * 3))
            (stitchedFlat tiles positions validTile.width validTile.height)
            (((validTile.height : ℤ) - bufferPixels + y) *
                ((validTile.width * 3 : ℕ) : ℤ) +
              ((validTile.width : ℤ) - bufferPixels + x))
        width := validTile.width + 2 * bufferPixels
        height := validTile.height + 2 * bufferPixels
        tileWidth := validTile.width
        tileHeight := validTile.height
        buffer := bufferPixels }

/-- The 3x3 fetch result in which only the center tile is present. -/
def centerOnly (t : RasterTile) : List (Option RasterTile) :=
  [none, none, none, none, some t, none, none, none, none]

theorem writeFlat_ne (len : ℕ) (arr : ℤ → Pixel) (idx : ℤ) (p : Pixel)
    (j : ℤ) (h : j ≠ idx) : writeFlat len arr idx p j = arr j := by
  unfold writeFlat
  rw [if_neg]
  intro hcon
  exact h hcon.2.2

theorem foldl_writeFlat_unwritten {α : Type} (len : ℕ) (idxOf : α → ℤ)
    (pxOf : α → Pixel) :
    ∀ (l : List α) (arr : ℤ → Pixel) (j : ℤ), (∀ a ∈ l, j ≠ idxOf a) →
      (l.foldl (fun acc a => writeFlat len acc (idxOf a) (pxOf a)) arr) j =
        arr j := by
  intro l
  induction l with
  | nil =>
    intro arr j _
    rfl
  | cons a rest ih =>
    intro arr j h
    rw [List.foldl_cons,
      ih _ _ (fun a' ha' => h a' (List.mem_cons_of_mem a ha'))]
    exact writeFlat_ne len arr (idxOf a) (pxOf a) j
      (h a (List.mem_cons_self a rest))

theorem writeTileFlat_unwritten (len : ℕ) (sw : ℤ) (arr : ℤ → Pixel)
    (t : RasterTile) (offX offY : ℤ) (j : ℤ)
    (h : ∀ px py : ℕ, px < t.width → py < t.height →
      j ≠ (offY + (py : ℤ)) * sw + (offX + (px : ℤ))) :
    writeTileFlat len sw arr t offX offY j = arr j := by
  unfold writeTileFlat
  have houter : ∀ (rows : List ℕ) (a : ℤ → Pixel),
      (∀ py ∈ rows, py < t.height) →
      (rows.foldl
        (fun a (py : ℕ) =>
          (List.range t.width).foldl
            (fun a2 (px : ℕ) =>
              writeFlat len a2 ((offY + (py : ℤ)) * sw + (offX + (px : ℤ)))
                (t.pix (px : ℤ) (py : ℤ)))
            a)
        a) j = a j := by
    intro rows
    induction rows with
    | nil =>
      intro a _
      rfl
    | cons py rest ih =>
      intro a hmem
      rw [List.foldl_cons,
        ih _ (fun p hp => hmem p (List.mem_cons_of_mem py hp))]
      exact foldl_writeFlat_unwritten len
        (fun px : ℕ => (offY + (py : ℤ)) * sw + (offX + (px : ℤ)))
        (fun px : ℕ => t.pix (px : ℤ) (py : ℤ))
        (List.range t.width) a j
        (fun px hpx =>
          h px py (List.mem_range.mp hpx)
            (hmem py (List.mem_cons_self py rest)))
  exact houter (List.range t.height) arr (fun py hpy => List.mem_range.mp hpy)

/-- Positional uniqueness of row-major flat indices: if the column parts
lie in `[0, W)`, equal flat indices force equal rows and columns. -/
theorem linear_digit_eq (W a b c d : ℤ) (hW : 0 < W) (hb0 : 0 ≤ b)
    (hbW : b < W) (hd0 : 0 ≤ d) (hdW : d < W)
    (h : a * W + b = c * W + d) : a = c ∧ b = d := by
  have hb : (a * W + b) % W = b := by
    rw [add_comm, Int.add_mul_emod_self]
    exact Int.emod_eq_of_lt hb0 hbW
  have hd : (c * W + d) % W = d := by
    rw [add_comm, Int.add_mul_emod_self]
    exact Int.emod_eq_of_lt hd0 hdW
  have hbd : b = d := by rw [← hb, h, hd]
  refine ⟨?_, hbd⟩
  have hac : a * W = c * W := by linarith
  exact mul_right_cancel₀ (ne_of_gt hW) hac

/-- A row-major slot with row and column both in `[0, W)` lies inside a
`W * W` allocation. -/
theorem slot_in_range (W a b : ℤ) (hW : 0 < W) (ha0 : 0 ≤ a) (haW : a < W)
    (hb0 : 0 ≤ b) (hbW : b < W) : 0 ≤ a * W + b ∧ a * W + b < W * W := by
  refine ⟨add_nonneg (mul_nonneg ha0 hW.le) hb0, ?_⟩
  have h1 : a * W ≤ (W - 1) * W := mul_le_mul_of_nonneg_right (by omega) hW.le
  have h2 : (W - 1) * W = W * W - W := by ring
  linarith

/-- If no write of any present tile lands on slot `j`, the stitched buffer
keeps the sentinel there. -/
theorem stitchedFlat_unwritten (tiles : List (Option RasterTile))
    (positions : List (ℤ × ℤ)) (tw th : ℕ) (j : ℤ)
    (h : ∀ e ∈ tiles.zip positions, ∀ t : RasterTile, e.1 = some t →
      ∀ px py : ℕ, px < t.width → py < t.height →
        j ≠ ((e.2.2 + 1) * th + (py : ℤ)) * ((tw * 3 : ℕ) : ℤ) +
          ((e.2.1 + 1) * tw + (px : ℤ))) :
    stitchedFlat tiles positions tw th j = sentinelPixel := by
  unfold stitchedFlat
  have haux : ∀ (l : List (Option RasterTile × (ℤ × ℤ)))
      (arr : ℤ → Pixel),
      (∀ e ∈ l, ∀ t : RasterTile, e.1 = some t →
        ∀ px py : ℕ, px < t.width → py < t.height →
          j ≠ ((e.2.2 + 1) * th + (py : ℤ)) * ((tw * 3 : ℕ) : ℤ) +
            ((e.2.1 + 1) * tw + (px : ℤ))) →
      (l.foldl
        (fun arr e =>
          match e.1 with
          | none => arr
          | some t =>
            writeTileFlat ((tw * 3) * (tw * 3)) ((tw * 3 : ℕ) : ℤ) arr t
              ((e.2.1 + 1) * tw) ((e.2.2 + 1) * th))
        arr) j = arr j := by
    intro l
    induction l with
    | nil =>
      intro arr _
      rfl
    | cons e rest ih =>
      intro arr hl
      rw [List.foldl_cons,
        ih _ (fun e' he' => hl e' (List.mem_cons_of_mem e he'))]
      cases he : e.1 with
      | none => rfl
      | some t =>
        show writeTileFlat ((tw * 3) * (tw * 3)) ((tw * 3 : ℕ) : ℤ) arr t
            ((e.2.1 + 1) * tw) ((e.2.2 + 1) * th) j = arr j
        exact writeTileFlat_unwritten _ _ arr t _ _ j
          (fun px py hpx hpy =>
            hl e (List.mem_cons_self e rest) t he px py hpx hpy)
  exact haux (tiles.zip positions) (fun _ => sentinelPixel) h

/-- C4 (amended): if all 9 fetched tiles are missing, `stitchTiles`
returns `none` (the route then answers 404); if only the center tile is
present, assembly succeeds and, provided `buffer ≤ tileHeight ≤ tileWidth`
(the route always passes buffer 1, and DEM tiles are square), every cell
of the extracted canvas outside the center tile's region is the neutral
sentinel (128,128,128,255).  Without that proviso the conclusion fails:
the stitched buffer is allocated `3*tileWidth` square (server.js line
325), so for tileHeight > tileWidth the center writes and the extract
reads can fall out of bounds, producing (0,0,0,0) — see
`stitchTiles_nonsquare_counterexample`. -/
theorem stitchTiles_missing_spec :
    (∀ b : ℕ, stitchTiles (List.replicate 9 none) bufferPositions b = none) ∧
    (∀ (t : RasterTile) (b : ℕ),
      1 ≤ t.height → t.height ≤ t.width → b ≤ t.height →
      ∃ c, stitchTiles (centerOnly t) bufferPositions b = some c ∧
        c.width = t.width + 2 * b ∧ c.height = t.height + 2 * b ∧
        ∀ x y : ℤ, 0 ≤ x → x < (t.width : ℤ) + 2 * b → 0 ≤ y →
          y < (t.height : ℤ) + 2 * b →
          ¬((b : ℤ) ≤ x ∧ x < (b : ℤ) + t.width ∧
            (b : ℤ) ≤ y ∧ y < (b : ℤ) + t.height) →
          c.pix x y = sentinelPixel) := by
  constructor
  · intro b
    rfl
  · intro t b h1 h2 hb
    have hw1 : 1 ≤ t.width := le_trans h1 h2
    refine ⟨_, rfl, rfl, rfl, ?_⟩
    intro x y hx0 hx1 hy0 hy1 hout
    show readFlat ((t.width * 3) * (t.width * 3))
        (stitchedFlat (centerOnly t) bufferPositions t.width t.height)
        (((t.height : ℤ) - (b : ℤ) + y) * ((t.width * 3 : ℕ) : ℤ) +
          ((t.width : ℤ) - (b : ℤ) + x)) = sentinelPixel
    have hW : (0 : ℤ) < ((t.width * 3 : ℕ) : ℤ) := by
      push_cast
      omega
    have hr := slot_in_range ((t.width * 3 : ℕ) : ℤ)
      ((t.height : ℤ) - (b : ℤ) + y) ((t.width : ℤ) - (b : ℤ) + x)
      hW (by push_cast; omega) (by push_cast; omega)
      (by push_cast; omega) (by push_cast; omega)
    unfold readFlat
    rw [if_pos ⟨hr.1, by push_cast at hr ⊢; linarith [hr.2]⟩]
    apply stitchedFlat_unwritten
    intro e he t' het' px py hpx hpy heq
    have hz : ((centerOnly t).zip bufferPositions) =
        [(none, ((-1 : ℤ), (-1 : ℤ))), (none, (0, -1)), (none, (1, -1)),
         (none, (-1, 0)), (some t, (0, 0)), (none, (1, 0)),
         (none, (-1, 1)), (none, (0, 1)), (none, (1, 1))] := rfl
    rw [hz] at he
    simp only [List.mem_cons, List.not_mem_nil, or_false] at he
    rcases he with rfl | rfl | rfl | rfl | rfl | rfl | rfl | rfl | rfl <;>
      dsimp only at het' heq <;>
      first
      | exact Option.noConfusion het'
      | (injection het' with hh
         subst hh
         have hdg := linear_digit_eq ((t.width * 3 : ℕ) : ℤ) _ _ _ _ hW
           (by push_cast; omega) (by push_cast; omega)
           (by push_cast; omega) (by push_cast; omega) heq
         push_cast at hdg
         omega)

/-- A 1-wide, 3-tall raster tile, exhibiting the out-of-bounds regime of
the 3*tileWidth-square stitched allocation. -/
def tallTile : RasterTile := ⟨1, 3, fun _ _ => (7, 7, 7, 255)⟩

/-- C4 counterexample: for a center-only 1x3 tile with buffer 1 the
stitched allocation holds 3x3 pixel slots (server.js line 325), the
center-tile writes land at slots 10, 13, 16 and are dropped, and canvas
cell (0,1) — inside the 3x5 canvas and outside the center region
[1,2)x[1,4) — reads slot 9, out of bounds, yielding (0,0,0,0) instead of
the sentinel: the claim fails for arbitrary tile dimensions. -/
theorem stitchTiles_nonsquare_counterexample :
    ∃ c, stitchTiles (centerOnly tallTile) bufferPositions 1 = some c ∧
      c.width = 3 ∧ c.height = 5 ∧
      ¬((1 : ℤ) ≤ 0 ∧ (0 : ℤ) < 1 + 1 ∧ (1 : ℤ) ≤ 1 ∧ (1 : ℤ) < 1 + 3) ∧
      c.pix 0 1 = (0, 0, 0, 0) ∧
      c.pix 0 1 ≠ sentinelPixel := by
  refine ⟨_, rfl, rfl, rfl, by decide, rfl, by decide⟩

/-- C4 witness: the amended assembler theorem applied at buffer 1 and a
concrete 1x1 black center tile, all dimension hypotheses discharged. -/
theorem stitchTiles_missing_spec_witness :
    stitchTiles (List.replicate 9 none) bufferPositions 1 = none ∧
    (∃ c, stitchTiles (centerOnly ⟨1, 1, fun _ _ => (0, 0, 0, 255)⟩)
        bufferPositions 1 = some c ∧
      c.width = 1 + 2 * 1 ∧ c.height = 1 + 2 * 1 ∧
      ∀ x y : ℤ, 0 ≤ x → x < (1 : ℤ) + 2 * 1 → 0 ≤ y →
        y < (1 : ℤ) + 2 * 1 →
        ¬((1 : ℤ) ≤ x ∧ x < (1 : ℤ) + 1 ∧ (1 : ℤ) ≤ y ∧ y < (1 : ℤ) + 1) →
        c.pix x y = sentinelPixel) :=
  ⟨stitchTiles_missing_spec.1 1,
   stitchTiles_missing_spec.2 ⟨1, 1, fun _ _ => (0, 0, 0, 255)⟩ 1
     (by norm_num) (by norm_num) (by norm_num)⟩

/-- The row-major pixel traversal of `generateContours` (server.js lines
139-150): pixel `i` of the flat array is `(i mod width, i div width)`. -/
def cellsOf (c : StitchedCanvas) : List Pixel :=
  (List.range c.height).flatMap fun y : ℕ =>
    (List.range c.width).map fun x : ℕ => c.pix (x : ℤ) (y : ℤ)

/-- Embedding of `generateContours(imageData, width, height, encoding,
minInterval, majorInterval)` (server.js lines 133-176), parameterized by
the isoline extractor: the source delegates extraction to the external
d3-contour library (`contours().size([w,h]).thresholds(thresholds)`),
which spec §9 directs to treat as a capability behind a
`grid + thresholds -> features` interface.  Decoding each pixel can throw
(unknown encoding), modelled by `Except`; the min/max fold, threshold
generation and major/minor classification are the source's. -/
def generateContoursX
    (extract : List ℚ → List ℚ → List ContourFeature)
    (cells : List Pixel) (encoding : String)
    (minInterval majorInterval : ℚ) : Except String (List ContourFeature) := do
  let elevations ← cells.mapM fun px =>
    decodeElevation px.1 px.2.1 px.2.2.1 encoding
  let thresholds :=
    match minMax elevations with
    | none => []
    | some (lo, hi) => generateThresholds lo hi minInterval
  pure ((extract elevations thresholds).map fun f =>
    { f with isMajor := isMajorLevel f.value majorInterval })

/-- Embedding of the tile route handler (server.js lines 481-545),
parameterized by the isoline extractor: fetch result → stitch with buffer
1 → contours → clip → encode → respond; any error thrown inside the
pipeline is caught by the surrounding try/catch and surfaced as a 500
internal error. -/
def handleTile (extract : List ℚ → List ℚ → List ContourFeature)
    (tiles : List (Option RasterTile)) (encoding : String)
    (minInterval majorInterval : ℚ) : TileResponse :=
  match stitchTiles tiles bufferPositions 1 with
  | none => .notFound
  | some stitched =>
    match generateContoursX extract (cellsOf stitched) encoding
        minInterval majorInterval with
    | .error e => .internalError e
    | .ok contourFeatures =>
      respondWithMVT (serializeMVT (encodeMVT
        (clipContoursToTile contourFeatures (stitched.tileWidth : ℚ)
          (stitched.tileHeight : ℚ) (stitched.buffer : ℚ))
        (stitched.tileWidth : ℚ) (stitched.tileHeight : ℚ)))

theorem mapM_decode_error (encoding msg : String)
    (h : ∀ px : Pixel,
      decodeElevation px.1 px.2.1 px.2.2.1 encoding = .error msg) :
    ∀ cells : List Pixel, cells ≠ [] →
      (cells.mapM fun px =>
        decodeElevation px.1 px.2.1 px.2.2.1 encoding) = .error msg := by
  intro cells hne
  cases cells with
  | nil => exact absurd rfl hne
  | cons a l =>
    rw [List.mapM_cons, h a]
    rfl

theorem cellsOf_ne_nil (c : StitchedCanvas) (hw : 0 < c.width)
    (hh : 0 < c.height) : cellsOf c ≠ [] := by
  unfold cellsOf
  intro hcon
  rw [List.flatMap_eq_nil_iff] at hcon
  have h0 : (0 : ℕ) ∈ List.range c.height := List.mem_range.mpr hh
  have := hcon 0 h0
  rw [List.map_eq_nil_iff, List.range_eq_nil] at this
  omega

/-- C8 (amended): an encoding tag other than `terrarium` or `mapbox` makes
`decodeElevation` throw `Unknown encoding: <tag>`.  The server performs no
startup validation of the `ENCODING` variable (server.js line 38), so with
an unknown encoding configured it starts and serves traffic, and every tile
request whose 3x3 fetch found at least one tile reaches the per-pixel
decode, throws there, and is surfaced by the route's try/catch as a 500
internal error — i.e. the failure occurs per tile, not at startup. -/
theorem decodeElevation_unknown_encoding (enc : String)
    (h1 : enc ≠ "terrarium") (h2 : enc ≠ "mapbox") :
    (∀ r g b : ℕ,
      decodeElevation r g b enc = .error ("Unknown encoding: " ++ enc)) ∧
    (∀ (extract : List ℚ → List ℚ → List ContourFeature)
      (tiles : List (Option RasterTile)) (s : StitchedCanvas)
      (minInterval majorInterval : ℚ),
      stitchTiles tiles bufferPositions 1 = some s →
      handleTile extract tiles enc minInterval majorInterval =
        .internalError ("Unknown encoding: " ++ enc)) := by
  have hdec : ∀ r g b : ℕ,
      decodeElevation r g b enc = .error ("Unknown encoding: " ++ enc) := by
    intro r g b
    unfold decodeElevation
    rw [if_neg h1, if_neg h2]
  refine ⟨hdec, ?_⟩
  intro extract tiles s minInterval majorInterval hstitch
  have hdim : 0 < s.width ∧ 0 < s.height := by
    unfold stitchTiles at hstitch
    cases hfind : tiles.findSome? id with
    | none =>
      rw [hfind] at hstitch
      exact Option.noConfusion hstitch
    | some v =>
      rw [hfind] at hstitch
      rw [Option.some.injEq] at hstitch
      rw [← hstitch]
      refine ⟨?_, ?_⟩
      · show 0 < v.width + 2 * 1
        omega
      · show 0 < v.height + 2 * 1
        omega
  have hgen : generateContoursX extract (cellsOf s) enc
      minInterval majorInterval = .error ("Unknown encoding: " ++ enc) := by
    unfold generateContoursX
    rw [mapM_decode_error enc ("Unknown encoding: " ++ enc)
      (fun px => hdec px.1 px.2.1 px.2.2.1) (cellsOf s)
      (cellsOf_ne_nil s hdim.1 hdim.2)]
    rfl
  unfold handleTile
  rw [hstitch]
  show (match generateContoursX extract (cellsOf s) enc
      minInterval majorInterval with
    | .error e => TileResponse.internalError e
    | .ok contourFeatures =>
      respondWithMVT (serializeMVT (encodeMVT
        (clipContoursToTile contourFeatures (s.tileWidth : ℚ)
          (s.tileHeight : ℚ) (s.buffer : ℚ))
        (s.tileWidth : ℚ) (s.tileHeight : ℚ)))) =
    .internalError ("Unknown encoding: " ++ enc)
  rw [hgen]

/-- A concrete 1x1 all-black tile used for concrete instantiation. -/
def demoTile : RasterTile := ⟨1, 1, fun _ _ => (0, 0, 0, 255)⟩

/-- C8 counterexample: with the unknown encoding tag `foo` configured, a
tile request whose center tile is present is processed and fails inside
per-pixel elevation decoding, surfaced as a 500 internal error — the
unknown-encoding failure does occur as a per-tile condition, refuting
"detected at startup ... never occurs as a per-tile condition" (there is no
startup check in the source). -/
theorem unknownEncoding_per_tile_counterexample :
    handleTile (fun _ _ => []) (centerOnly demoTile) "foo" 10 50 =
      .internalError "Unknown encoding: foo" ∧
    decodeElevation 0 0 0 "foo" = .error "Unknown encoding: foo" :=
  ⟨rfl, rfl⟩

/-- C8 witness: the amended theorem applied at the concrete tag `foo` and a
concrete center-only fetch result, all hypotheses discharged. -/
theorem decodeElevation_unknown_encoding_witness :
    decodeElevation 5 5 5 "foo" = .error "Unknown encoding: foo" ∧
    handleTile (fun _ _ => []) (centerOnly demoTile) "foo" 10 50 =
      .internalError "Unknown encoding: foo" :=
  ⟨(decodeElevation_unknown_encoding "foo" (by decide) (by decide)).1 5 5 5,
   (decodeElevation_unknown_encoding "foo" (by decide) (by decide)).2
     (fun _ _ => []) (centerOnly demoTile) _ 10 50 rfl⟩

theorem mapboxElevations (cells : List Pixel) :
    (cells.mapM fun px => decodeElevation px.1 px.2.1 px.2.2.1 "mapbox") =
      .ok (cells.map fun px =>
        -10000 + (((px.1 : ℚ) * 256 * 256 + (px.2.1 : ℚ) * 256 + px.2.2.1) *
          (1 / 10))) := by
  induction cells with
  | nil => rfl
  | cons a l ih =>
    rw [List.mapM_cons]
    have ha : decodeElevation a.1 a.2.1 a.2.2.1 "mapbox" =
        .ok (-10000 + (((a.1 : ℚ) * 256 * 256 + (a.2.1 : ℚ) * 256 +
          a.2.2.1) * (1 / 10))) := rfl
    rw [ha, ih]
    rfl

theorem minMax_fold_bound :
    ∀ (l : List ℚ) (lo hi : ℚ),
      ∃ lo' hi',
        (l.foldl (fun acc v => match acc with
          | none => some (v, v)
          | some (lo, hi) => some (min lo v, max hi v)) (some (lo, hi))) =
          some (lo', hi') ∧ hi ≤ hi' := by
  intro l
  induction l with
  | nil =>
    intro lo hi
    exact ⟨lo, hi, rfl, le_refl hi⟩
  | cons a l ih =>
    intro lo hi
    obtain ⟨lo', hi', heq, hle⟩ := ih (min lo a) (max hi a)
    exact ⟨lo', hi', heq, le_trans (le_max_left hi a) hle⟩

theorem minMax_mem_bound :
    ∀ (l : List ℚ) (lo hi : ℚ) (v : ℚ), v ∈ l →
      ∃ lo' hi',
        (l.foldl (fun acc v => match acc with
          | none => some (v, v)
          | some (lo, hi) => some (min lo v, max hi v)) (some (lo, hi))) =
          some (lo', hi') ∧ v ≤ hi' := by
  intro l
  induction l with
  | nil =>
    intro lo hi v hv
    cases hv
  | cons a l ih =>
    intro lo hi v hv
    rw [List.foldl_cons]
    rcases List.mem_cons.mp hv with rfl | hv'
    · obtain ⟨lo', hi', heq, hle⟩ := minMax_fold_bound l (min lo v) (max hi v)
      exact ⟨lo', hi', heq, le_trans (le_max_right hi v) hle⟩
    · exact ih (min lo a) (max hi a) v hv'

theorem minMax_bound (l : List ℚ) (v : ℚ) (hv : v ∈ l) :
    ∃ lo hi, minMax l = some (lo, hi) ∧ v ≤ hi := by
  cases l with
  | nil => cases hv
  | cons a l =>
    unfold minMax
    rw [List.foldl_cons]
    rcases List.mem_cons.mp hv with rfl | hv'
    · obtain ⟨lo', hi', heq, hle⟩ := minMax_fold_bound l v v
      exact ⟨lo', hi', heq, hle⟩
    · exact minMax_mem_bound l a a v hv'

theorem pix_mem_cellsOf (c : StitchedCanvas) (x y : ℕ) (hx : x < c.width)
    (hy : y < c.height) : c.pix (x : ℤ) (y : ℤ) ∈ cellsOf c := by
  unfold cellsOf
  rw [List.mem_flatMap]
  exact ⟨y, List.mem_range.mpr hy,
    List.mem_map.mpr ⟨x, List.mem_range.mpr hx, rfl⟩⟩

theorem mapbox_max_of_sentinel_cell (c : StitchedCanvas) (x y : ℕ)
    (hx : x < c.width) (hy : y < c.height)
    (hpix : c.pix (x : ℤ) (y : ℤ) = sentinelPixel) :
    ∃ elevations,
      ((cellsOf c).mapM fun px =>
        decodeElevation px.1 px.2.1 px.2.2.1 "mapbox") = .ok elevations ∧
      ∃ lo hi, minMax elevations = some (lo, hi) ∧
        (-10000 + 8421504 * (1 / 10) : ℚ) ≤ hi := by
  refine ⟨_, mapboxElevations (cellsOf c), ?_⟩
  have hmem : sentinelPixel ∈ cellsOf c := hpix ▸ pix_mem_cellsOf c x y hx hy
  have hmem2 : (-10000 + 8421504 * (1 / 10) : ℚ) ∈
      (cellsOf c).map (fun px =>
        -10000 + (((px.1 : ℚ) * 256 * 256 + (px.2.1 : ℚ) * 256 + px.2.2.1) *
          (1 / 10))) :=
    List.mem_map.mpr ⟨sentinelPixel, hmem, by norm_num [sentinelPixel]⟩
  exact minMax_bound _ _ hmem2

/-- C10 (amended): the missing-tile sentinel (128,128,128,255) decodes to
exactly 128.5 under Terrarium but to `-10000 + 8421504 * 0.1` (= 832150.4)
under Mapbox; consequently in Mapbox mode, whenever at least one of the 9
neighborhood slots is missing and the tiles have uniform dimensions with
`buffer(=1) ≤ tileHeight ≤ tileWidth`, a sentinel pixel lands inside the
extracted canvas, its extreme decoded value enters the elevation grid, and
the maximum used for threshold planning is at least 832150.4.  Without the
dimension proviso this fails: extract reads of the 3*tileWidth-square
stitched allocation can all be out of bounds, filling the grid with
(0,0,0,0) = -10000 under Mapbox — see
`sentinel_mapbox_nonsquare_counterexample`. -/
theorem sentinel_mapbox_extreme :
    decodeElevation 128 128 128 "terrarium" = .ok (128.5 : ℚ) ∧
    decodeElevation 128 128 128 "mapbox" =
      .ok (-10000 + 8421504 * (1 / 10) : ℚ) ∧
    ∀ (t0 t1 t2 t3 t4 t5 t6 t7 t8 : Option RasterTile) (v : RasterTile),
      [t0, t1, t2, t3, t4, t5, t6, t7, t8].findSome? id = some v →
      (∀ u ∈ [t0, t1, t2, t3, t4, t5, t6, t7, t8], ∀ t : RasterTile,
        u = some t → t.width = v.width ∧ t.height = v.height) →
      1 ≤ v.height → v.height ≤ v.width →
      none ∈ [t0, t1, t2, t3, t4, t5, t6, t7, t8] →
      ∃ c, stitchTiles [t0, t1, t2, t3, t4, t5, t6, t7, t8] bufferPositions 1 = some c ∧
        ∃ x y : ℕ, x < c.width ∧ y < c.height ∧
          c.pix (x : ℤ) (y : ℤ) = sentinelPixel ∧
          ∃ elevations,
            ((cellsOf c).mapM fun px =>
              decodeElevation px.1 px.2.1 px.2.2.1 "mapbox") =
              .ok elevations ∧
            ∃ lo hi, minMax elevations = some (lo, hi) ∧
              (-10000 + 8421504 * (1 / 10) : ℚ) ≤ hi := by
  refine ⟨?_, ?_, ?_⟩
  · unfold decodeElevation
    rw [if_pos rfl]
    exact congrArg Except.ok (by norm_num)
  · unfold decodeElevation
    rw [if_neg (by decide), if_pos rfl]
    exact congrArg Except.ok (by norm_num)
  intro t0 t1 t2 t3 t4 t5 t6 t7 t8 v hfind hdims h1 h2 hmiss
  have hw1 : 1 ≤ v.width := le_trans h1 h2
  unfold stitchTiles
  rw [hfind]
  refine ⟨_, rfl, ?_⟩
  simp only [List.mem_cons, List.not_mem_nil, or_false] at hmiss
  rcases hmiss with h | h | h | h | h | h | h | h | h
  · have hW : (0 : ℤ) < ((v.width * 3 : ℕ) : ℤ) := by
      push_cast
      omega
    have hpix : readFlat ((v.width * 3) * (v.width * 3))
        (stitchedFlat [t0, t1, t2, t3, t4, t5, t6, t7, t8] bufferPositions v.width v.height)
        (((v.height : ℤ) - 1 + ((0 : ℕ) : ℤ)) * ((v.width * 3 : ℕ) : ℤ) +
          ((v.width : ℤ) - 1 + ((0 : ℕ) : ℤ))) = sentinelPixel := by
      have hr := slot_in_range ((v.width * 3 : ℕ) : ℤ)
        ((v.height : ℤ) - 1 + ((0 : ℕ) : ℤ))
        ((v.width : ℤ) - 1 + ((0 : ℕ) : ℤ))
        hW (by push_cast; omega) (by push_cast; omega)
        (by push_cast; omega) (by push_cast; omega)
      unfold readFlat
      rw [if_pos ⟨hr.1, by push_cast at hr ⊢; linarith [hr.2]⟩]
      apply stitchedFlat_unwritten
      intro e he t' het' px py hpx hpy heq
      have hz : ([t0, t1, t2, t3, t4, t5, t6, t7, t8].zip bufferPositions) =
          [(t0, ((-1 : ℤ), (-1 : ℤ))), (t1, (0, -1)), (t2, (1, -1)),
           (t3, (-1, 0)), (t4, (0, 0)), (t5, (1, 0)), (t6, (-1, 1)),
           (t7, (0, 1)), (t8, (1, 1))] := rfl
      rw [hz] at he
      simp only [List.mem_cons, List.not_mem_nil, or_false] at he
      rcases he with rfl | rfl | rfl | rfl | rfl | rfl | rfl | rfl | rfl <;>
        dsimp only at het' heq <;>
        first
        | (rw [← h] at het'
           exact Option.noConfusion het')
        | (obtain ⟨hww, hhh⟩ := hdims _ (by simp) t' het'
           rw [hww] at hpx
           rw [hhh] at hpy
           have hdg := linear_digit_eq ((v.width * 3 : ℕ) : ℤ) _ _ _ _ hW
             (by push_cast; omega) (by push_cast; omega)
             (by push_cast; omega) (by push_cast; omega) heq
           push_cast at hdg
           omega)
    exact ⟨0, 0, by show (0 : ℕ) < v.width + 2 * 1; omega,
      by show (0 : ℕ) < v.height + 2 * 1; omega, hpix,
      mapbox_max_of_sentinel_cell _ 0 0
        (by show (0 : ℕ) < v.width + 2 * 1; omega)
        (by show (0 : ℕ) < v.height + 2 * 1; omega) hpix⟩
  · have hW : (0 : ℤ) < ((v.width * 3 : ℕ) : ℤ) := by
      push_cast
      omega
    have hpix : readFlat ((v.width * 3) * (v.width * 3))
        (stitchedFlat [t0, t1, t2, t3, t4, t5, t6, t7, t8] bufferPositions v.width v.height)
        (((v.height : ℤ) - 1 + ((0 : ℕ) : ℤ)) * ((v.width * 3 : ℕ) : ℤ) +
          ((v.width : ℤ) - 1 + ((1 : ℕ) : ℤ))) = sentinelPixel := by
      have hr := slot_in_range ((v.width * 3 : ℕ) : ℤ)
        ((v.height : ℤ) - 1 + ((0 : ℕ) : ℤ))
        ((v.width : ℤ) - 1 + ((1 : ℕ) : ℤ))
        hW (by push_cast; omega) (by push_cast; omega)
        (by push_cast; omega) (by push_cast; omega)
      unfold readFlat
      rw [if_pos ⟨hr.1, by push_cast at hr ⊢; linarith [hr.2]⟩]
      apply stitchedFlat_unwritten
      intro e he t' het' px py hpx hpy heq
      have hz : ([t0, t1, t2, t3, t4, t5, t6, t7, t8].zip bufferPositions) =
          [(t0, ((-1 : ℤ), (-1 : ℤ))), (t1, (0, -1)), (t2, (1, -1)),
           (t3, (-1, 0)), (t4, (0, 0)), (t5, (1, 0)), (t6, (-1, 1)),
           (t7, (0, 1)), (t8, (1, 1))] := rfl
      rw [hz] at he
      simp only [List.mem_cons, List.not_mem_nil, or_false] at he
      rcases he with rfl | rfl | rfl | rfl | rfl | rfl | rfl | rfl | rfl <;>
        dsimp only at het' heq <;>
        first
        | (rw [← h] at het'
           exact Option.noConfusion het')
        | (obtain ⟨hww, hhh⟩ := hdims _ (by simp) t' het'
           rw [hww] at hpx
           rw [hhh] at hpy
           have hdg := linear_digit_eq ((v.width * 3 : ℕ) : ℤ) _ _ _ _ hW
             (by push_cast; omega) (by push_cast; omega)
             (by push_cast; omega) (by push_cast; omega) heq
           push_cast at hdg
           omega)
    exact ⟨1, 0, by show (1 : ℕ) < v.width + 2 * 1; omega,
      by show (0 : ℕ) < v.height + 2 * 1; omega, hpix,
      mapbox_max_of_sentinel_cell _ 1 0
        (by show (1 : ℕ) < v.width + 2 * 1; omega)
        (by show (0 : ℕ) < v.height + 2 * 1; omega) hpix⟩
  · have hW : (0 : ℤ) < ((v.width * 3 : ℕ) : ℤ) := by
      push_cast
      omega
    have hpix : readFlat ((v.width * 3) * (v.width * 3))
        (stitchedFlat [t0, t1, t2, t3, t4, t5, t6, t7, t8] bufferPositions v.width v.height)
        (((v.height : ℤ) - 1 + ((0 : ℕ) : ℤ)) * ((v.width * 3 : ℕ) : ℤ) +
          ((v.width : ℤ) - 1 + (((v.width + 1) : ℕ) : ℤ))) = sentinelPixel := by
      have hr := slot_in_range ((v.width * 3 : ℕ) : ℤ)
        ((v.height : ℤ) - 1 + ((0 : ℕ) : ℤ))
        ((v.width : ℤ) - 1 + (((v.width + 1) : ℕ) : ℤ))
        hW (by push_cast; omega) (by push_cast; omega)
        (by push_cast; omega) (by push_cast; omega)
      unfold readFlat
      rw [if_pos ⟨hr.1, by push_cast at hr ⊢; linarith [hr.2]⟩]
      apply stitchedFlat_unwritten
      intro e he t' het' px py hpx hpy heq
      have hz : ([t0, t1, t2, t3, t4, t5, t6, t7, t8].zip bufferPositions) =
          [(t0, ((-1 : ℤ), (-1 : ℤ))), (t1, (0, -1)), (t2, (1, -1)),
           (t3, (-1, 0)), (t4, (0, 0)), (t5, (1, 0)), (t6, (-1, 1)),
           (t7, (0, 1)), (t8, (1, 1))] := rfl
      rw [hz] at he
      simp only [List.mem_cons, List.not_mem_nil, or_false] at he
      rcases he with rfl | rfl | rfl | rfl | rfl | rfl | rfl | rfl | rfl <;>
        dsimp only at het' heq <;>
        first
        | (rw [← h] at het'
           exact Option.noConfusion het')
        | (obtain ⟨hww, hhh⟩ := hdims _ (by simp) t' het'
           rw [hww] at hpx
           rw [hhh] at hpy
           have hdg := linear_digit_eq ((v.width * 3 : ℕ) : ℤ) _ _ _ _ hW
             (by push_cast; omega) (by push_cast; omega)
             (by push_cast; omega) (by push_cast; omega) heq
           push_cast at hdg
           omega)
    exact ⟨(v.width + 1), 0, by show ((v.width + 1) : ℕ) < v.width + 2 * 1; omega,
      by show (0 : ℕ) < v.height + 2 * 1; omega, hpix,
      mapbox_max_of_sentinel_cell _ (v.width + 1) 0
        (by show ((v.width + 1) : ℕ) < v.width + 2 * 1; omega)
        (by show (0 : ℕ) < v.height + 2 * 1; omega) hpix⟩
  · have hW : (0 : ℤ) < ((v.width * 3 : ℕ) : ℤ) := by
      push_cast
      omega
    have hpix : readFlat ((v.width * 3) * (v.width * 3))
        (stitchedFlat [t0, t1, t2, t3, t4, t5, t6, t7, t8] bufferPositions v.width v.height)
        (((v.height : ℤ) - 1 + ((1 : ℕ) : ℤ)) * ((v.width * 3 : ℕ) : ℤ) +
          ((v.width : ℤ) - 1 + ((0 : ℕ) : ℤ))) = sentinelPixel := by
      have hr := slot_in_range ((v.width * 3 : ℕ) : ℤ)
        ((v.height : ℤ) - 1 + ((1 : ℕ) : ℤ))
        ((v.width : ℤ) - 1 + ((0 : ℕ) : ℤ))
        hW (by push_cast; omega) (by push_cast; omega)
        (by push_cast; omega) (by push_cast; omega)
      unfold readFlat
      rw [if_pos ⟨hr.1, by push_cast at hr ⊢; linarith [hr.2]⟩]
      apply stitchedFlat_unwritten
      intro e he t' het' px py hpx hpy heq
      have hz : ([t0, t1, t2, t3, t4, t5, t6, t7, t8].zip bufferPositions) =
          [(t0, ((-1 : ℤ), (-1 : ℤ))), (t1, (0, -1)), (t2, (1, -1)),
           (t3, (-1, 0)), (t4, (0, 0)), (t5, (1, 0)), (t6, (-1, 1)),
           (t7, (0, 1)), (t8, (1, 1))] := rfl
      rw [hz] at he
      simp only [List.mem_cons, List.not_mem_nil, or_false] at he
      rcases he with rfl | rfl | rfl | rfl | rfl | rfl | rfl | rfl | rfl <;>
        dsimp only at het' heq <;>
        first
        | (rw [← h] at het'
           exact Option.noConfusion het')
        | (obtain ⟨hww, hhh⟩ := hdims _ (by simp) t' het'
           rw [hww] at hpx
           rw [hhh] at hpy
           have hdg := linear_digit_eq ((v.width * 3 : ℕ) : ℤ) _ _ _ _ hW
             (by push_cast; omega) (by push_cast; omega)
             (by push_cast; omega) (by push_cast; omega) heq
           push_cast at hdg
           omega)
    exact ⟨0, 1, by show (0 : ℕ) < v.width + 2 * 1; omega,
      by show (1 : ℕ) < v.height + 2 * 1; omega, hpix,
      mapbox_max_of_sentinel_cell _ 0 1
        (by show (0 : ℕ) < v.width + 2 * 1; omega)
        (by show (1 : ℕ) < v.height + 2 * 1; omega) hpix⟩
  · have hW : (0 : ℤ) < ((v.width * 3 : ℕ) : ℤ) := by
      push_cast
      omega
    have hpix : readFlat ((v.width * 3) * (v.width * 3))
        (stitchedFlat [t0, t1, t2, t3, t4, t5, t6, t7, t8] bufferPositions v.width v.height)
        (((v.height : ℤ) - 1 + ((1 : ℕ) : ℤ)) * ((v.width * 3 : ℕ) : ℤ) +
          ((v.width : ℤ) - 1 + ((1 : ℕ) : ℤ))) = sentinelPixel := by
      have hr := slot_in_range ((v.width * 3 : ℕ) : ℤ)
        ((v.height : ℤ) - 1 + ((1 : ℕ) : ℤ))
        ((v.width : ℤ) - 1 + ((1 : ℕ) : ℤ))
        hW (by push_cast; omega) (by push_cast; omega)
        (by push_cast; omega) (by push_cast; omega)
      unfold readFlat
      rw [if_pos ⟨hr.1, by push_cast at hr ⊢; linarith [hr.2]⟩]
      apply stitchedFlat_unwritten
      intro e he t' het' px py hpx hpy heq
      have hz : ([t0, t1, t2, t3, t4, t5, t6, t7, t8].zip bufferPositions) =
          [(t0, ((-1 : ℤ), (-1 : ℤ))), (t1, (0, -1)), (t2, (1, -1)),
           (t3, (-1, 0)), (t4, (0, 0)), (t5, (1, 0)), (t6, (-1, 1)),
           (t7, (0, 1)), (t8, (1, 1))] := rfl
      rw [hz] at he
      simp only [List.mem_cons, List.not_mem_nil, or_false] at he
      rcases he with rfl | rfl | rfl | rfl | rfl | rfl | rfl | rfl | rfl <;>
        dsimp only at het' heq <;>
        first
        | (rw [← h] at het'
           exact Option.noConfusion het')
        | (obtain ⟨hww, hhh⟩ := hdims _ (by simp) t' het'
           rw [hww] at hpx
           rw [hhh] at hpy
           have hdg := linear_digit_eq ((v.width * 3 : ℕ) : ℤ) _ _ _ _ hW
             (by push_cast; omega) (by push_cast; omega)
             (by push_cast; omega) (by push_cast; omega) heq
           push_cast at hdg
           omega)
    exact ⟨1, 1, by show (1 : ℕ) < v.width + 2 * 1; omega,
      by show (1 : ℕ) < v.height + 2 * 1; omega, hpix,
      mapbox_max_of_sentinel_cell _ 1 1
        (by show (1 : ℕ) < v.width + 2 * 1; omega)
        (by show (1 : ℕ) < v.height + 2 * 1; omega) hpix⟩
  · have hW : (0 : ℤ) < ((v.width * 3 : ℕ) : ℤ) := by
      push_cast
      omega
    have hpix : readFlat ((v.width * 3) * (v.width * 3))
        (stitchedFlat [t0, t1, t2, t3, t4, t5, t6, t7, t8] bufferPositions v.width v.height)
        (((v.height : ℤ) - 1 + ((1 : ℕ) : ℤ)) * ((v.width * 3 : ℕ) : ℤ) +
          ((v.width : ℤ) - 1 + (((v.width + 1) : ℕ) : ℤ))) = sentinelPixel := by
      have hr := slot_in_range ((v.width * 3 : ℕ) : ℤ)
        ((v.height : ℤ) - 1 + ((1 : ℕ) : ℤ))
        ((v.width : ℤ) - 1 + (((v.width + 1) : ℕ) : ℤ))
        hW (by push_cast; omega) (by push_cast; omega)
        (by push_cast; omega) (by push_cast; omega)
      unfold readFlat
      rw [if_pos ⟨hr.1, by push_cast at hr ⊢; linarith [hr.2]⟩]
      apply stitchedFlat_unwritten
      intro e he t' het' px py hpx hpy heq
      have hz : ([t0, t1, t2, t3, t4, t5, t6, t7, t8].zip bufferPositions) =
          [(t0, ((-1 : ℤ), (-1 : ℤ))), (t1, (0, -1)), (t2, (1, -1)),
           (t3, (-1, 0)), (t4, (0, 0)), (t5, (1, 0)), (t6, (-1, 1)),
           (t7, (0, 1)), (t8, (1, 1))] := rfl
      rw [hz] at he
      simp only [List.mem_cons, List.not_mem_nil, or_false] at he
      rcases he with rfl | rfl | rfl | rfl | rfl | rfl | rfl | rfl | rfl <;>
        dsimp only at het' heq <;>
        first
        | (rw [← h] at het'
           exact Option.noConfusion het')
        | (obtain ⟨hww, hhh⟩ := hdims _ (by simp) t' het'
           rw [hww] at hpx
           rw [hhh] at hpy
           have hdg := linear_digit_eq ((v.width * 3 : ℕ) : ℤ) _ _ _ _ hW
             (by push_cast; omega) (by push_cast; omega)
             (by push_cast; omega) (by push_cast; omega) heq
           push_cast at hdg
           omega)
    exact ⟨(v.width + 1), 1, by show ((v.width + 1) : ℕ) < v.width + 2 * 1; omega,
      by show (1 : ℕ) < v.height + 2 * 1; omega, hpix,
      mapbox_max_of_sentinel_cell _ (v.width + 1) 1
        (by show ((v.width + 1) : ℕ) < v.width + 2 * 1; omega)
        (by show (1 : ℕ) < v.height + 2 * 1; omega) hpix⟩
  · have hW : (0 : ℤ) < ((v.width * 3 : ℕ) : ℤ) := by
      push_cast
      omega
    have hpix : readFlat ((v.width * 3) * (v.width * 3))
        (stitchedFlat [t0, t1, t2, t3, t4, t5, t6, t7, t8] bufferPositions v.width v.height)
        (((v.height : ℤ) - 1 + (((v.height + 1) : ℕ) : ℤ)) * ((v.width * 3 : ℕ) : ℤ) +
          ((v.width : ℤ) - 1 + ((0 : ℕ) : ℤ))) = sentinelPixel := by
      have hr := slot_in_range ((v.width * 3 : ℕ) : ℤ)
        ((v.height : ℤ) - 1 + (((v.height + 1) : ℕ) : ℤ))
        ((v.width : ℤ) - 1 + ((0 : ℕ) : ℤ))
        hW (by push_cast; omega) (by push_cast; omega)
        (by push_cast; omega) (by push_cast; omega)
      unfold readFlat
      rw [if_pos ⟨hr.1, by push_cast at hr ⊢; linarith [hr.2]⟩]
      apply stitchedFlat_unwritten
      intro e he t' het' px py hpx hpy heq
      have hz : ([t0, t1, t2, t3, t4, t5, t6, t7, t8].zip bufferPositions) =
          [(t0, ((-1 : ℤ), (-1 : ℤ))), (t1, (0, -1)), (t2, (1, -1)),
           (t3, (-1, 0)), (t4, (0, 0)), (t5, (1, 0)), (t6, (-1, 1)),
           (t7, (0, 1)), (t8, (1, 1))] := rfl
      rw [hz] at he
      simp only [List.mem_cons, List.not_mem_nil, or_false] at he
      rcases he with rfl | rfl | rfl | rfl | rfl | rfl | rfl | rfl | rfl <;>
        dsimp only at het' heq <;>
        first
        | (rw [← h] at het'
           exact Option.noConfusion het')
        | (obtain ⟨hww, hhh⟩ := hdims _ (by simp) t' het'
           rw [hww] at hpx
           rw [hhh] at hpy
           have hdg := linear_digit_eq ((v.width * 3 : ℕ) : ℤ) _ _ _ _ hW
             (by push_cast; omega) (by push_cast; omega)
             (by push_cast; omega) (by push_cast; omega) heq
           push_cast at hdg
           omega)
    exact ⟨0, (v.height + 1), by show (0 : ℕ) < v.width + 2 * 1; omega,
      by show ((v.height + 1) : ℕ) < v.height + 2 * 1; omega, hpix,
      mapbox_max_of_sentinel_cell _ 0 (v.height + 1)
        (by show (0 : ℕ) < v.width + 2 * 1; omega)
        (by show ((v.height + 1) : ℕ) < v.height + 2 * 1; omega) hpix⟩
  · have hW : (0 : ℤ) < ((v.width * 3 : ℕ) : ℤ) := by
      push_cast
      omega
    have hpix : readFlat ((v.width * 3) * (v.width * 3))
        (stitchedFlat [t0, t1, t2, t3, t4, t5, t6, t7, t8] bufferPositions v.width v.height)
        (((v.height : ℤ) - 1 + (((v.height + 1) : ℕ) : ℤ)) * ((v.width * 3 : ℕ) : ℤ) +
          ((v.width : ℤ) - 1 + ((1 : ℕ) : ℤ))) = sentinelPixel := by
      have hr := slot_in_range ((v.width * 3 : ℕ) : ℤ)
        ((v.height : ℤ) - 1 + (((v.height + 1) : ℕ) : ℤ))
        ((v.width : ℤ) - 1 + ((1 : ℕ) : ℤ))
        hW (by push_cast; omega) (by push_cast; omega)
        (by push_cast; omega) (by push_cast; omega)
      unfold readFlat
      rw [if_pos ⟨hr.1, by push_cast at hr ⊢; linarith [hr.2]⟩]
      apply stitchedFlat_unwritten
      intro e he t' het' px py hpx hpy heq
      have hz : ([t0, t1, t2, t3, t4, t5, t6, t7, t8].zip bufferPositions) =
          [(t0, ((-1 : ℤ), (-1 : ℤ))), (t1, (0, -1)), (t2, (1, -1)),
           (t3, (-1, 0)), (t4, (0, 0)), (t5, (1, 0)), (t6, (-1, 1)),
           (t7, (0, 1)), (t8, (1, 1))] := rfl
      rw [hz] at he
      simp only [List.mem_cons, List.not_mem_nil, or_false] at he
      rcases he with rfl | rfl | rfl | rfl | rfl | rfl | rfl | rfl | rfl <;>
        dsimp only at het' heq <;>
        first
        | (rw [← h] at het'
           exact Option.noConfusion het')
        | (obtain ⟨hww, hhh⟩ := hdims _ (by simp) t' het'
           rw [hww] at hpx
           rw [hhh] at hpy
           have hdg := linear_digit_eq ((v.width * 3 : ℕ) : ℤ) _ _ _ _ hW
             (by push_cast; omega) (by push_cast; omega)
             (by push_cast; omega) (by push_cast; omega) heq
           push_cast at hdg
           omega)
    exact ⟨1, (v.height + 1), by show (1 : ℕ) < v.width + 2 * 1; omega,
      by show ((v.height + 1) : ℕ) < v.height + 2 * 1; omega, hpix,
      mapbox_max_of_sentinel_cell _ 1 (v.height + 1)
        (by show (1 : ℕ) < v.width + 2 * 1; omega)
        (by show ((v.height + 1) : ℕ) < v.height + 2 * 1; omega) hpix⟩
  · have hW : (0 : ℤ) < ((v.width * 3 : ℕ) : ℤ) := by
      push_cast
      omega
    have hpix : readFlat ((v.width * 3) * (v.width * 3))
        (stitchedFlat [t0, t1, t2, t3, t4, t5, t6, t7, t8] bufferPositions v.width v.height)
        (((v.height : ℤ) - 1 + (((v.height + 1) : ℕ) : ℤ)) * ((v.width * 3 : ℕ) : ℤ) +
          ((v.width : ℤ) - 1 + (((v.width + 1) : ℕ) : ℤ))) = sentinelPixel := by
      have hr := slot_in_range ((v.width * 3 : ℕ) : ℤ)
        ((v.height : ℤ) - 1 + (((v.height + 1) : ℕ) : ℤ))
        ((v.width : ℤ) - 1 + (((v.width + 1) : ℕ) : ℤ))
        hW (by push_cast; omega) (by push_cast; omega)
        (by push_cast; omega) (by push_cast; omega)
      unfold readFlat
      rw [if_pos ⟨hr.1, by push_cast at hr ⊢; linarith [hr.2]⟩]
      apply stitchedFlat_unwritten
      intro e he t' het' px py hpx hpy heq
      have hz : ([t0, t1, t2, t3, t4, t5, t6, t7, t8].zip bufferPositions) =
          [(t0, ((-1 : ℤ), (-1 : ℤ))), (t1, (0, -1)), (t2, (1, -1)),
           (t3, (-1, 0)), (t4, (0, 0)), (t5, (1, 0)), (t6, (-1, 1)),
           (t7, (0, 1)), (t8, (1, 1))] := rfl
      rw [hz] at he
      simp only [List.mem_cons, List.not_mem_nil, or_false] at he
      rcases he with rfl | rfl | rfl | rfl | rfl | rfl | rfl | rfl | rfl <;>
        dsimp only at het' heq <;>
        first
        | (rw [← h] at het'
           exact Option.noConfusion het')
        | (obtain ⟨hww, hhh⟩ := hdims _ (by simp) t' het'
           rw [hww] at hpx
           rw [hhh] at hpy
           have hdg := linear_digit_eq ((v.width * 3 : ℕ) : ℤ) _ _ _ _ hW
             (by push_cast; omega) (by push_cast; omega)
             (by push_cast; omega) (by push_cast; omega) heq
           push_cast at hdg
           omega)
    exact ⟨(v.width + 1), (v.height + 1), by show ((v.width + 1) : ℕ) < v.width + 2 * 1; omega,
      by show ((v.height + 1) : ℕ) < v.height + 2 * 1; omega, hpix,
      mapbox_max_of_sentinel_cell _ (v.width + 1) (v.height + 1)
        (by show ((v.width + 1) : ℕ) < v.width + 2 * 1; omega)
        (by show ((v.height + 1) : ℕ) < v.height + 2 * 1; omega) hpix⟩

/-- C10 witness: the sentinel theorem applied to a concrete fetch result
(center 1x1 tile present, all 8 neighbors missing), all hypotheses
discharged. -/
theorem sentinel_mapbox_extreme_witness :
    ∃ c, stitchTiles (centerOnly demoTile) bufferPositions 1 = some c ∧
      ∃ x y : ℕ, x < c.width ∧ y < c.height ∧
        c.pix (x : ℤ) (y : ℤ) = sentinelPixel ∧
        ∃ elevations,
          ((cellsOf c).mapM fun px =>
            decodeElevation px.1 px.2.1 px.2.2.1 "mapbox") = .ok elevations ∧
          ∃ lo hi, minMax elevations = some (lo, hi) ∧
            (-10000 + 8421504 * (1 / 10) : ℚ) ≤ hi :=
  sentinel_mapbox_extreme.2.2 none none none none (some demoTile)
    none none none none demoTile rfl
    (by
      intro u hu t ht
      simp only [List.mem_cons, List.not_mem_nil, or_false] at hu
      rcases hu with rfl | rfl | rfl | rfl | rfl | rfl | rfl | rfl | rfl <;>
        first
        | exact Option.noConfusion ht
        | (injection ht with hh
           rw [← hh]
           exact ⟨rfl, rfl⟩))
    (Nat.le_refl 1) (Nat.le_refl 1) (by simp [centerOnly])

theorem isMajorLevel_multiple (M : ℚ) (hM : M ≠ 0) (k : ℤ) :
    isMajorLevel ((k : ℚ) * M) M = true := by
  have hdiv : (k : ℚ) * M / M = (k : ℚ) := mul_div_cancel_right₀ _ hM
  simp only [isMajorLevel, jsMod, hdiv, jsTrunc_intCast]
  norm_num

theorem isMajorLevel_eval_false (t M : ℚ) (q : ℤ) (h0 : 0 ≤ t / M)
    (hq : ⌊t / M⌋ = q) (hlo : 1 / 100 ≤ t - (q : ℚ) * M) :
    isMajorLevel t M = false := by
  simp only [isMajorLevel, jsMod, jsTrunc, if_pos h0, hq,
    decide_eq_false_iff_not, not_lt]
  exact le_trans hlo (le_abs_self _)

/-- End-to-end scenario B input: an elevation grid ramping linearly from 0
to 100 across its width (one 11-pixel row, step 10). -/
def rampGrid : List ℚ := [0, 10, 20, 30, 40, 50, 60, 70, 80, 90, 100]

/-- C9: on the 0→100 ramp grid with minorInterval 10 and majorInterval 50,
the pipeline produces exactly the levels 10, 20, ..., 100 — threshold 0 is
planned but has no crossing (no grid value lies strictly below 0), so the
extractor omits it — and exactly 50 and 100 are classified major. -/
theorem contourLevels_ramp :
    contourLevels rampGrid 10 50 =
      [(10, false), (20, false), (30, false), (40, false), (50, true),
       (60, false), (70, false), (80, false), (90, false), (100, true)] := by
  have hminmax : minMax rampGrid = some (0, 100) := by
    unfold minMax rampGrid
    simp only [List.foldl_cons, List.foldl_nil]
    norm_num [min_def, max_def]
  have hceil : ⌈(0 : ℚ) / 10⌉ = 0 := by
    rw [zero_div, Int.ceil_zero]
  have hfloor : ⌊((100 : ℚ) - ((0 : ℤ) : ℚ) * 10) / 10⌋ = 10 :=
    floorEval _ 10 (by norm_num) (by norm_num)
  have hthr : generateThresholds 0 100 10 =
      [0, 10, 20, 30, 40, 50, 60, 70, 80, 90, 100] := by
    unfold generateThresholds
    rw [hceil]
    rw [if_pos (by norm_num)]
    rw [hfloor]
    have hr : List.range ((10 : ℤ).toNat + 1) =
        [0, 1, 2, 3, 4, 5, 6, 7, 8, 9, 10] := rfl
    rw [hr]
    norm_num
  have hM50 : isMajorLevel 50 50 = true := by
    have h := isMajorLevel_multiple 50 (by norm_num) 1
    norm_num at h
    exact h
  have hM100 : isMajorLevel 100 50 = true := by
    have h := isMajorLevel_multiple 50 (by norm_num) 2
    norm_num at h
    exact h
  have hM10 : isMajorLevel 10 50 = false :=
    isMajorLevel_eval_false 10 50 0 (by norm_num)
      (floorEval _ 0 (by norm_num) (by norm_num)) (by norm_num)
  have hM20 : isMajorLevel 20 50 = false :=
    isMajorLevel_eval_false 20 50 0 (by norm_num)
      (floorEval _ 0 (by norm_num) (by norm_num)) (by norm_num)
  have hM30 : isMajorLevel 30 50 = false :=
    isMajorLevel_eval_false 30 50 0 (by norm_num)
      (floorEval _ 0 (by norm_num) (by norm_num)) (by norm_num)
  have hM40 : isMajorLevel 40 50 = false :=
    isMajorLevel_eval_false 40 50 0 (by norm_num)
      (floorEval _ 0 (by norm_num) (by norm_num)) (by norm_num)
  have hM60 : isMajorLevel 60 50 = false :=
    isMajorLevel_eval_false 60 50 1 (by norm_num)
      (floorEval _ 1 (by norm_num) (by norm_num)) (by norm_num)
  have hM70 : isMajorLevel 70 50 = false :=
    isMajorLevel_eval_false 70 50 1 (by norm_num)
      (floorEval _ 1 (by norm_num) (by norm_num)) (by norm_num)
  have hM80 : isMajorLevel 80 50 = false :=
    isMajorLevel_eval_false 80 50 1 (by norm_num)
      (floorEval _ 1 (by norm_num) (by norm_num)) (by norm_num)
  have hM90 : isMajorLevel 90 50 = false :=
    isMajorLevel_eval_false 90 50 1 (by norm_num)
      (floorEval _ 1 (by norm_num) (by norm_num)) (by norm_num)
  unfold contourLevels
  rw [hminmax]
  dsimp only
  rw [hthr]
  simp only [rampGrid, List.filterMap_cons, List.filterMap_nil,
    List.any_cons, List.any_nil, hM10, hM20, hM30, hM40, hM50, hM60, hM70,
    hM80, hM90, hM100]
  norm_num

theorem minMax_const (l : List ℚ) (v : ℚ) (hne : l ≠ [])
    (hall : ∀ x ∈ l, x = v) : minMax l = some (v, v) := by
  cases l with
  | nil => exact absurd rfl hne
  | cons a rest =>
    have ha : a = v := hall a (List.mem_cons_self a rest)
    subst ha
    unfold minMax
    rw [List.foldl_cons]
    have haux : ∀ (m : List ℚ), (∀ x ∈ m, x = a) →
        (m.foldl
          (fun acc v =>
            match acc with
            | none => some (v, v)
            | some (lo, hi) => some (min lo v, max hi v))
          (some (a, a))) = some (a, a) := by
      intro m
      induction m with
      | nil =>
        intro _
        rfl
      | cons b bs ih =>
        intro hmem
        have hb : b = a := hmem b (List.mem_cons_self b bs)
        subst hb
        rw [List.foldl_cons]
        simp only [min_self, max_self]
        exact ih (fun x hx => hmem x (List.mem_cons_of_mem b hx))
    exact haux rest (fun x hx => hall x (List.mem_cons_of_mem a hx))

/-- If every cell of the canvas is the out-of-bounds value (0,0,0,0), the
Mapbox elevation grid is constantly -10000 and the planning maximum stays
strictly below the sentinel elevation. -/
theorem minMax_mapbox_all_undefined (c : StitchedCanvas)
    (hne : cellsOf c ≠ [])
    (hall : ∀ q ∈ cellsOf c, q = ((0, 0, 0, 0) : Pixel)) :
    ∃ elevations,
      ((cellsOf c).mapM fun px =>
        decodeElevation px.1 px.2.1 px.2.2.1 "mapbox") = .ok elevations ∧
      ∃ lo hi, minMax elevations = some (lo, hi) ∧
        hi < -10000 + 8421504 * (1 / 10) := by
  refine ⟨_, mapboxElevations _, ?_⟩
  have hminmax : minMax ((cellsOf c).map fun px =>
      -10000 + (((px.1 : ℚ) * 256 * 256 + (px.2.1 : ℚ) * 256 + px.2.2.1) *
        (1 / 10))) =
      some (-10000 + ((((0 : ℕ) : ℚ) * 256 * 256 + ((0 : ℕ) : ℚ) * 256 +
          ((0 : ℕ) : ℚ)) * (1 / 10)),
        -10000 + ((((0 : ℕ) : ℚ) * 256 * 256 + ((0 : ℕ) : ℚ) * 256 +
          ((0 : ℕ) : ℚ)) * (1 / 10))) := by
    apply minMax_const
    · intro hcon
      rw [List.map_eq_nil_iff] at hcon
      exact hne hcon
    · intro x hx
      obtain ⟨px, hpx, rfl⟩ := List.mem_map.mp hx
      rw [hall px hpx]
  exact ⟨_, _, hminmax, by norm_num⟩

/-- A 1-wide, 4-tall raster tile: with buffer 1 every extract read of the
3*tileWidth-square stitched allocation is out of bounds. -/
def tallTile4 : RasterTile := ⟨1, 4, fun _ _ => (7, 7, 7, 255)⟩

/-- C10 counterexample: for a Mapbox-mode request on a center-only 1x4
tile (so at least one neighbor is missing), every extract read of the
9-slot stitched allocation (server.js line 325) is out of bounds: the
whole elevation grid becomes (0,0,0,0), which decodes to -10000, no
sentinel-valued cell enters the grid, and the planning maximum stays below
832150.4 — refuting the claim for arbitrary tile dimensions. -/
theorem sentinel_mapbox_nonsquare_counterexample :
    ∃ c, stitchTiles (centerOnly tallTile4) bufferPositions 1 = some c ∧
      sentinelPixel ∉ cellsOf c ∧
      ∃ elevations,
        ((cellsOf c).mapM fun px =>
          decodeElevation px.1 px.2.1 px.2.2.1 "mapbox") = .ok elevations ∧
        ∃ lo hi, minMax elevations = some (lo, hi) ∧
          hi < -10000 + 8421504 * (1 / 10) := by
  refine ⟨_, rfl, by decide, ?_⟩
  exact minMax_mapbox_all_undefined _ (by decide) (by decide)
